import Mathlib

set_option maxHeartbeats 1000000

/-!
Formal model of the PiVot-Server inference pipeline.

This development shallowly embeds the core of the repository
(`text_processor.py`, `text_output_processor.py`, `image_processor.py`,
`npu_inference_engine.py`) in Lean.  Python strings are modeled as `String` /
`List Char`, floats as `ℚ` (exact arithmetic; noted where it matters), numpy
arrays at the level of their shape and flattened data, and the external
collaborators (OpenVINO compiled models, the wall clock, the random sampler
inside the logits decoder) as explicit function parameters.
-/

namespace PiVot

/-! ## Python string primitives -/

/-- The set of characters Python treats as whitespace: this is the set accepted
by `str.strip()` with no argument and matched by the regex class on `str`
patterns for whitespace (CPython's `Py_UNICODE_ISSPACE` table). -/
def pyIsSpace (c : Char) : Bool :=
  c == ' ' || c == '\t' || c == '\n' || c == '\r' || c == '\x0b' || c == '\x0c' ||
  c == '\x1c' || c == '\x1d' || c == '\x1e' || c == '\x1f' || c == '\x85' || c == '\xa0' ||
  c == '\u1680' || (decide ('\u2000' ≤ c) && decide (c ≤ '\u200a')) || c == '\u2028' ||
  c == '\u2029' || c == '\u202f' || c == '\u205f' || c == '\u3000'

/-- Model of Python `str.strip()`: drop whitespace from both ends. -/
def pyStripList (l : List Char) : List Char :=
  ((l.dropWhile pyIsSpace).reverse.dropWhile pyIsSpace).reverse

/-- Worker for `collapseRuns`: `inRun` records whether the previous character
was part of a run matched by `p` (in which case further `p`-characters are
dropped rather than re-emitted). -/
def collapseRunsAux (p : Char → Bool) (r : Char) : Bool → List Char → List Char
  | _, [] => []
  | inRun, c :: cs =>
    if p c then
      if inRun then collapseRunsAux p r true cs
      else r :: collapseRunsAux p r true cs
    else c :: collapseRunsAux p r false cs

/-- Model of a `re.sub` call whose pattern is a one-or-more repetition of a
single character class: every maximal run of characters satisfying `p` is
replaced by the single character `r`. -/
def collapseRuns (p : Char → Bool) (r : Char) (l : List Char) : List Char :=
  collapseRunsAux p r false l

/-- Fuel-indexed worker for `replaceAll`; the fuel is an upper bound on the
number of characters consumed, so `l.length` is always enough. -/
def replaceAllFuel (pat rep : List Char) : Nat → List Char → List Char
  | _, [] => []
  | 0, l => l
  | n + 1, c :: cs =>
    if pat.isPrefixOf (c :: cs) then rep ++ replaceAllFuel pat rep n ((c :: cs).drop pat.length)
    else c :: replaceAllFuel pat rep n cs

/-- Model of Python `str.replace(pat, rep)`: replace every non-overlapping
occurrence of `pat`, scanning left to right and continuing after each
replacement.  All call sites in the repository use a non-empty `pat`; the
empty-pattern guard returns the input unchanged. -/
def replaceAll (l pat rep : List Char) : List Char :=
  if pat.isEmpty then l else replaceAllFuel pat rep l.length l

/-- Single-character class used by the newline-collapsing regexes. -/
def isNl (c : Char) : Bool := c == '\n'

/-- Single-character class used by the plain-space-collapsing regex. -/
def isSpaceChar (c : Char) : Bool := c == ' '

/-! ## TextProcessor.clean_text -/

/-- The pattern of the second quote line of `clean_text`.  That line reads
`text = text.replace(''', "'").replace(''', "'")`, and each three-apostrophe
token `'''` opens or closes a triple-quoted string, so Python parses the whole
line as a SINGLE `str.replace` call: its pattern is the fifteen characters
standing between the two `'''` tokens and its replacement is one straight
apostrophe. -/
def mangledQuotePat : List Char :=
  [',', ' ', '"', '\'', '"', ')', '.', 'r', 'e', 'p', 'l', 'a', 'c', 'e', '(']

/-- Body of `TextProcessor.clean_text` on the character list: strip, replace
newline runs by a single space, collapse whitespace runs to a single space,
apply the two quote lines exactly as the source lexes them (first line: two
replaces of the straight double quote by itself, both identities; second line:
one replace of `mangledQuotePat` by a straight apostrophe — the source performs
no curly-quote normalization), drop control characters (codepoint < 32), strip
again. -/
def cleanTextList (l : List Char) : List Char :=
  let t0 := pyStripList l
  let t1 := collapseRuns isNl ' ' t0
  let t2 := collapseRuns pyIsSpace ' ' t1
  let t3 := replaceAll (replaceAll t2 ['"'] ['"']) ['"'] ['"']
  let t4 := replaceAll t3 mangledQuotePat ['\'']
  let t5 := t4.filter (fun c => decide (32 ≤ c.toNat))
  pyStripList t5

/-- Model of `TextProcessor.clean_text`.  The leading empty-string test is the
`if not text` early return; the `try/except` wrapper never fires because every
step is total. -/
def clean_text (s : String) : String :=
  if s.data.isEmpty then "" else String.mk (cleanTextList s.data)

/-! ## TextOutputProcessor.clean_generated_text -/

/-- The special-token denylist removed by `clean_generated_text`. -/
def specialTokens : List String :=
  ["<pad>", "<unk>", "<s>", "</s>", "<|endoftext|>",
   "[CLS]", "[SEP]", "[PAD]", "[UNK]", "[MASK]"]

/-- The punctuation class of the whitespace-before-punctuation regex. -/
def punctClass (c : Char) : Bool :=
  c == '.' || c == ',' || c == '!' || c == '?' || c == ';' || c == ':'

/-- Fuel-indexed worker for `removeWsBeforePunct`: a maximal whitespace run
immediately followed by a punctuation character is deleted; other runs are
kept verbatim.  The fuel bounds the characters consumed, so `l.length`
suffices. -/
def removeWsBeforePunctFuel : Nat → List Char → List Char
  | _, [] => []
  | 0, l => l
  | n + 1, c :: cs =>
    if pyIsSpace c then
      match (c :: cs).dropWhile pyIsSpace with
      | [] => (c :: cs).takeWhile pyIsSpace
      | p :: rest =>
        if punctClass p then removeWsBeforePunctFuel n (p :: rest)
        else (c :: cs).takeWhile pyIsSpace ++ removeWsBeforePunctFuel n (p :: rest)
    else c :: removeWsBeforePunctFuel n cs

/-- Model of the `re.sub` deleting whitespace runs before `.,!?;:`. -/
def removeWsBeforePunct (l : List Char) : List Char :=
  removeWsBeforePunctFuel l.length l

/-- Python's per-sentence capitalization: first character uppercased when the
fragment has more than one character, else the whole (one-character) fragment
uppercased.  (Lean's `Char.toUpper` agrees with `str.upper()` on ASCII.) -/
def capitalizeFragment (l : List Char) : List Char :=
  match l with
  | [] => []
  | [c] => [c.toUpper]
  | c :: cs => c.toUpper :: cs

/-- Python `text.endswith(('.', '!', '?'))`. -/
def endsWithTerminalDot (l : List Char) : Bool :=
  match l.getLast? with
  | some c => c == '.' || c == '!' || c == '?'
  | none => false

/-- Body of `TextOutputProcessor.clean_generated_text` on the character list:
remove the special tokens, collapse newline runs to one newline, collapse
space runs to one space, drop whitespace before punctuation, then split on
periods, strip and capitalize each non-empty fragment, rejoin with a period
and a space, append a final period when the text lacks terminal punctuation,
and strip. -/
def cleanGeneratedList (l : List Char) : List Char :=
  let t0 := specialTokens.foldl (fun acc tok => replaceAll acc tok.data []) l
  let t1 := collapseRuns isNl '\n' t0
  let t2 := collapseRuns isSpaceChar ' ' t1
  let t3 := removeWsBeforePunct t2
  let frags := ((List.splitOn '.' t3).map pyStripList).filter (fun f => !f.isEmpty)
  let t4 := List.intercalate ('.' :: ' ' :: []) (frags.map capitalizeFragment)
  let t5 := if !t4.isEmpty && !endsWithTerminalDot t4 then t4 ++ ['.'] else t4
  pyStripList t5

/-- Model of `TextOutputProcessor.clean_generated_text`; the `try/except`
wrapper never fires because every step is total. -/
def clean_generated_text (s : String) : String :=
  if s.data.isEmpty then "" else String.mk (cleanGeneratedList s.data)

/-! ## Python values and token decoding -/

/-- Runtime-typed Python values as they flow through the output extractor:
strings, ints, floats (modeled by `ℚ`), lists, tuples, and numpy arrays
carrying their shape and flattened data. -/
inductive PyVal : Type where
  | vStr (s : String)
  | vInt (n : Int)
  | vFloat (q : ℚ)
  | vList (xs : List PyVal)
  | vTuple (xs : List PyVal)
  | vArr (shape : List Nat) (data : List ℚ)

/-- Python `int(t)` on a float: truncation toward zero. -/
def pyInt (q : ℚ) : Int := if 0 ≤ q then ⌊q⌋ else ⌈q⌉

/-- Python `chr(n)`: defined on valid codepoints, raises otherwise (`none`). -/
def pyChr (n : Int) : Option Char :=
  if 0 ≤ n ∧ Nat.isValidChar n.toNat then some (Char.ofNat n.toNat) else none

/-- A numeric scalar, as accepted by `int(t)`. -/
def asScalar : PyVal → Option ℚ
  | .vInt n => some ((n : ℚ))
  | .vFloat q => some q
  | _ => none

/-- The iterable of numbers a decoder sees: an ndarray is flattened to its
data; lists and tuples are iterated, raising (`none`) at the first non-numeric
element; every other value raises when iterated or converted. -/
def pyFlattenNums : PyVal → Option (List ℚ)
  | .vArr _ data => some data
  | .vList xs => xs.mapM asScalar
  | .vTuple xs => xs.mapM asScalar
  | _ => none

/-- Model of `TextOutputProcessor.decode_token_ids` in the fallback
configuration (`self.tokenizer = None`): keep ids whose truncation lies in the
printable ASCII range `[32, 126]`, map them to characters, join, strip.  A
raised exception is reported through the error string (its message text is
abbreviated here). -/
def decode_token_ids (v : PyVal) : String :=
  match pyFlattenNums v with
  | some qs =>
    String.mk (pyStripList (qs.filterMap fun t =>
      if 32 ≤ pyInt t ∧ pyInt t ≤ 126 then some (Char.ofNat (pyInt t).toNat) else none))
  | none => "[Decoding Error]"

/-- Model of `TextProcessor.decode_tokens` in the fallback configuration
(`self.tokenizer = None`): every id strictly greater than zero maps back to
its character; any exception (non-numeric element, invalid codepoint) makes
the method return the empty string. -/
def decode_tokens (v : PyVal) : String :=
  match pyFlattenNums v with
  | some qs =>
    match (qs.filter fun t => decide (0 < t)).mapM (fun t => pyChr (pyInt t)) with
    | some cs => String.mk cs
    | none => ""
  | none => ""

/-! ## TextOutputProcessor.extract_text_from_multimodal_output -/

/-- The fixed ordered list of exact-match output keys (priority 10). -/
def priority_keys : List String :=
  ["generated_text", "text_output", "caption", "description", "answer", "response",
   "prediction", "output_text", "decoded_text", "text", "content"]

/-- One entry of the candidate list: key, value, priority. -/
structure Cand where
  key : String
  val : PyVal
  prio : Nat

/-- Model of the Python substring test (`pat in s`). -/
def infixCheck (pat : List Char) : List Char → Bool
  | [] => pat.isEmpty
  | c :: cs => pat.isPrefixOf (c :: cs) || infixCheck pat cs

def containsSub (sub s : String) : Bool := infixCheck sub.data s.data

/-- Python `str.lower()` (Lean's `Char.toLower` agrees on ASCII, which covers
every key and constant the heuristics compare). -/
def strLower (s : String) : String := String.mk (s.data.map Char.toLower)

/-- Python dict lookup on an insertion-ordered association list. -/
def dictFind {α : Type} (d : List (String × α)) (k : String) : Option α :=
  (d.find? fun kv => kv.1 == k).map fun kv => kv.2

/-- Python `k in d`. -/
def dictContains {α : Type} (d : List (String × α)) (k : String) : Bool :=
  d.any fun kv => kv.1 == k

/-- Python `d[k] = v`: overwrite in place when the key exists (its position is
kept), else append. -/
def dictSet {α : Type} (d : List (String × α)) (k : String) (v : α) : List (String × α) :=
  if dictContains d k then d.map fun kv => if kv.1 == k then (k, v) else kv
  else d ++ [(k, v)]

/-- Python `del d[k]` (the callers guard existence; on an absent key the model
simply removes nothing, and the engine models the raised `KeyError`
explicitly at its call site). -/
def dictErase {α : Type} (d : List (String × α)) (k : String) : List (String × α) :=
  d.filter fun kv => !(kv.1 == k)

/-- Python `isinstance(value, (list, np.ndarray))`, the type guard of the
logit-key scan. -/
def isListLike : PyVal → Bool
  | .vList _ => true
  | .vArr _ _ => true
  | _ => false

/-- The three candidate-collection loops: the priority keys in their fixed
order (priority 10), then the remaining keys containing `text` (priority 5),
then the keys containing `logit` with list-like values (priority 1), the last
two in the dict's insertion order. -/
def buildCandidates (outputs : List (String × PyVal)) : List Cand :=
  let c10 := priority_keys.filterMap fun k => (dictFind outputs k).map fun v => Cand.mk k v 10
  let c5 := outputs.filterMap fun kv =>
    if !(priority_keys.contains kv.1) && containsSub "text" (strLower kv.1) then
      some (Cand.mk kv.1 kv.2 5)
    else none
  let c1 := outputs.filterMap fun kv =>
    if containsSub "logit" (strLower kv.1) && isListLike kv.2 then
      some (Cand.mk kv.1 kv.2 1)
    else none
  c10 ++ c5 ++ c1

/-- Stable insertion: a candidate moves past strictly greater priorities only,
so equal priorities keep their original relative order. -/
def insertCandByPrio (c : Cand) : List Cand → List Cand
  | [] => [c]
  | d :: ds => if c.prio < d.prio then d :: insertCandByPrio c ds else c :: d :: ds

/-- Model of `text_candidates.sort(key=lambda x: x[2], reverse=True)`: a
stable sort by priority, descending. -/
def sortCandidates : List Cand → List Cand
  | [] => []
  | c :: cs => insertCandByPrio c (sortCandidates cs)

/-- One iteration of the candidate loop in
`extract_text_from_multimodal_output`.  `logitsToText` abstracts
`process_logits_to_text`, whose sampling step draws from `np.random`; it is
reached only for array values under a logit-named key.  `none` means the
branch falls through to the next candidate. -/
def tryCandidate (logitsToText : PyVal → String) (c : Cand) : Option String :=
  match c.val with
  | .vStr s => some (clean_generated_text s)
  | .vList [] => none
  | .vList (x :: xs) =>
    match x with
    | .vStr s1 => some (clean_generated_text s1)
    | .vInt _ => some (clean_generated_text (decode_token_ids (.vList (x :: xs))))
    | .vFloat _ => some (clean_generated_text (decode_token_ids (.vList (x :: xs))))
    | _ => none
  | .vTuple [] => none
  | .vTuple (x :: xs) =>
    match x with
    | .vStr s1 => some (clean_generated_text s1)
    | .vInt _ => some (clean_generated_text (decode_token_ids (.vTuple (x :: xs))))
    | .vFloat _ => some (clean_generated_text (decode_token_ids (.vTuple (x :: xs))))
    | _ => none
  | .vArr shape data =>
    if containsSub "logit" (strLower c.key) then
      some (clean_generated_text (logitsToText (.vArr shape data)))
    else
      some (clean_generated_text (decode_token_ids (.vArr shape data)))
  | _ => none

/-- The fixed sentinel returned when no candidate produces text. -/
def extractionFailureSentinel : String := "テキスト出力の抽出に失敗しました。"

/-- Model of `TextOutputProcessor.extract_text_from_multimodal_output`. -/
def extract_text_from_multimodal_output (logitsToText : PyVal → String)
    (outputs : List (String × PyVal)) : String :=
  match (sortCandidates (buildCandidates outputs)).findSome? (tryCandidate logitsToText) with
  | some t => t
  | none => extractionFailureSentinel

/-- Python `text.endswith(tuple_of_single_chars)`. -/
def endsWithAnyChar (l : List Char) (cs : List Char) : Bool :=
  match l.getLast? with
  | some c => cs.contains c
  | none => false

/-- Model of `TextOutputProcessor.format_conversation_output`: clean, then (if
context is requested and a prompt is present) a question cue appends a
Japanese full stop when terminal punctuation is missing, an explain cue
flattens newlines to spaces, and the generate cue — like the default — leaves
the text unchanged.  Empty input returns the fixed no-response sentinel. -/
def format_conversation_output (text user_prompt : String) (add_context : Bool) : String :=
  if text.data.isEmpty then "応答を生成できませんでした。"
  else
    let t := clean_generated_text text
    if add_context && !user_prompt.data.isEmpty then
      if containsSub "質問" user_prompt || containsSub "?" user_prompt ||
         containsSub "？" user_prompt then
        if !endsWithAnyChar t.data ['.', '!', '?', '。', '！', '？'] then t ++ "。" else t
      else if containsSub "説明" user_prompt || containsSub "教え" user_prompt then
        String.mk (t.data.map fun c => if c == '\n' then ' ' else c)
      else t
    else t

/-! ## TextProcessor tokenization (fallback configuration) -/

/-- The padding-and-packing step of `_simple_tokenize`: zero-pad the ids to
`maxLength` and build the `input_ids` array and the attention mask (1 exactly
at positive ids).  The `(1, maxLength)` int64 arrays are represented through
their flattened data. -/
def padTokens (maxLength : Nat) (charIds : List Int) : List (String × PyVal) :=
  [("input_ids", PyVal.vArr [1, maxLength]
      ((charIds ++ List.replicate (maxLength - charIds.length) 0).map
        fun n => (Int.cast n : ℚ))),
   ("attention_mask", PyVal.vArr [1, maxLength]
      ((charIds ++ List.replicate (maxLength - charIds.length) 0).map
        fun n => if 0 < n then (1 : ℚ) else 0))]

/-- Model of `TextProcessor._simple_tokenize`, the character-codec fallback
used when the external tokenizer collaborator is unavailable: clean the text,
take the codepoints of the first `maxLength` characters as token ids, zero-pad
to `maxLength`, and pack the arrays. -/
def simple_tokenize (maxLength : Nat) (text : String) : List (String × PyVal) :=
  padTokens maxLength (((clean_text text).data.take maxLength).map fun c => (c.toNat : Int))

/-- Model of `TextProcessor.process_for_inference` in the fallback-tokenizer
configuration (`self.tokenizer = None`) with the engine's default
`return_features = False`: it reduces to `_simple_tokenize`. -/
def text_process_for_inference (maxLength : Nat) (text : String) :
    List (String × PyVal) :=
  simple_tokenize maxLength text

/-! ## ImageProcessor (shape level) -/

/-- The shape of a numpy image `(height, width, channels)`. -/
structure ImgShape where
  h : Nat
  w : Nat
  c : Nat
deriving DecidableEq

/-- Shape-level model of `cv2.resize(image, (tw, th))`: raises (`none`) when
the source is empty or a target dimension is zero, otherwise yields height
`th`, width `tw` and the source's channel count. -/
def cv2ResizeShape (img : ImgShape) (tw th : Nat) : Option ImgShape :=
  if tw = 0 ∨ th = 0 ∨ img.h = 0 ∨ img.w = 0 then none
  else some ⟨th, tw, img.c⟩

/-- Shape-level model of the aspect-preserving resize of `ImageProcessor`
(scale by `min(tw/w, th/h)` — exact rational arithmetic here — resize, paste
centered onto a `(th, tw, 3)` canvas of the fill color).  A `none` result
models an exception escaping the method: every failure inside the `try` falls
back to `cv2.resize(image, target_size)` in the `except` arm (a zero scaled
dimension, a non-3-channel paste, and — first of all — a zero source
dimension, which makes the scale division raise before anything else). -/
def aspectScale (h w tw th : Nat) : ℚ :=
  min ((tw : ℚ) / (w : ℚ)) ((th : ℚ) / (h : ℚ))

/-- Python `int(d * scale)` on the nonnegative values arising here. -/
def scaledDim (d : Nat) (scale : ℚ) : Nat := (⌊(d : ℚ) * scale⌋).toNat

def resizeMaintainAspect (img : ImgShape) (tw th : Nat) : Option ImgShape :=
  if img.w = 0 ∨ img.h = 0 then
    cv2ResizeShape img tw th
  else
    match cv2ResizeShape img (scaledDim img.w (aspectScale img.h img.w tw th))
        (scaledDim img.h (aspectScale img.h img.w tw th)) with
    | none => cv2ResizeShape img tw th
    | some resized =>
      if resized.c = 3 ∧ scaledDim img.h (aspectScale img.h img.w tw th) ≤ th ∧
          scaledDim img.w (aspectScale img.h img.w tw th) ≤ tw then
        some ⟨th, tw, 3⟩
      else cv2ResizeShape img tw th

/-- Shape-level model of `ImageProcessor.preprocess_image` with the default
`normalize=True`: resize to the target, scale to `[0,1]`, standardize with the
`(3,)` ImageNet constant vectors (the broadcast requires 3 — or, degenerately,
1 — channels and produces 3), transpose to channel-first, add a batch
dimension.  `none` models the re-raised exception. -/
def preprocessImageShape (img : ImgShape) (tw th : Nat) : Option (List Nat) :=
  match cv2ResizeShape img tw th with
  | none => none
  | some r => if r.c = 3 ∨ r.c = 1 then some [1, 3, r.h, r.w] else none

/-- Image inputs as the engine receives them: raw bytes, a file path, or an
in-memory array.  For bytes and paths the constructor carries the decode
outcome — `none` when loading fails, otherwise the decoded height and width
(both loaders convert to RGB, so a loaded image always has 3 channels). -/
inductive ImageInput : Type where
  | bytes (decoded : Option (Nat × Nat))
  | file (decoded : Option (Nat × Nat))
  | array (shape : ImgShape)
deriving DecidableEq

/-- The load step of `ImageProcessor.process_for_inference`. -/
def loadImage : ImageInput → Option ImgShape
  | .bytes d => d.map fun hw => ⟨hw.1, hw.2, 3⟩
  | .file d => d.map fun hw => ⟨hw.1, hw.2, 3⟩
  | .array sh => some sh

/-- Shape-level model of `ImageProcessor.process_for_inference`: load, then
optionally the aspect-preserving resize, then `preprocess_image`; every
failure returns `none` (`null`) — the method never raises to its caller. -/
def image_process_for_inference (input : ImageInput) (maintainAspect : Bool)
    (tw th : Nat) : Option (List Nat) :=
  match loadImage input with
  | none => none
  | some img =>
    match (if maintainAspect then resizeMaintainAspect img tw th else some img) with
    | none => none
    | some img2 => preprocessImageShape img2 tw th

/-! ## NPUInferenceEngine: model registry -/

/-- Outcome of invoking a compiled model: a positional list of output tensors,
or a raised exception carrying its message. -/
inductive InvokeOutcome : Type where
  | ok (results : List PyVal)
  | exn (msg : String)

/-- A compiled OpenVINO model as the engine observes it: declared input and
output port names, and the two call forms (positional list, name-keyed dict).
Port shapes and element types are not used by any claim and are elided from
the port metadata. -/
structure CompiledModel where
  inputNames : List String
  outputNames : List String
  invokePos : List PyVal → InvokeOutcome
  invokeNamed : List (String × PyVal) → InvokeOutcome

/-- The per-model entry of `model_configs` (`mtype` is the `type` key). -/
structure ModelConfig where
  mtype : String
  mpath : String
  inputs : List String
  outputs : List String

/-- The engine's mutable state: the two insertion-ordered dicts. -/
structure EngineState where
  models : List (String × CompiledModel)
  model_configs : List (String × ModelConfig)

def initEngine : EngineState := ⟨[], []⟩

/-- Model of `NPUInferenceEngine.load_model`.  `pathExists` is the outcome of
the file-existence check; `compiled` is the value returned by
`npu_manager.compile_model`, which catches its own exceptions and returns
`None` on any compilation failure.  On success the compiled handle is stored
in `models` and then the port metadata in `model_configs`. -/
def load_model (s : EngineState) (model_name model_path model_type : String)
    (pathExists : Bool) (compiled : Option CompiledModel) : Bool × EngineState :=
  if !pathExists then (false, s)
  else
    match compiled with
    | none => (false, s)
    | some cm =>
      (true, ⟨dictSet s.models model_name cm,
              dictSet s.model_configs model_name
                { mtype := model_type, mpath := model_path,
                  inputs := cm.inputNames, outputs := cm.outputNames }⟩)

/-- Model of `NPUInferenceEngine.unload_model`.  The two `del` statements run
in order; if the name were present in `models` but missing from
`model_configs`, the second `del` would raise `KeyError` — caught by the
`except`, returning `False` with `models` already mutated. -/
def unload_model (s : EngineState) (model_name : String) : Bool × EngineState :=
  if dictContains s.models model_name then
    if dictContains s.model_configs model_name then
      (true, ⟨dictErase s.models model_name, dictErase s.model_configs model_name⟩)
    else (false, ⟨dictErase s.models model_name, s.model_configs⟩)
  else (false, s)

/-- One registry operation, with the outcomes of its external collaborators. -/
inductive EngineOp : Type where
  | load (model_name model_path model_type : String)
         (pathExists : Bool) (compiled : Option CompiledModel)
  | unload (model_name : String)

def stepEngine (s : EngineState) : EngineOp → EngineState
  | .load n p ty pe cm => (load_model s n p ty pe cm).2
  | .unload n => (unload_model s n).2

def runEngine (ops : List EngineOp) : EngineState :=
  ops.foldl stepEngine initEngine

/-! ## NPUInferenceEngine: inference entry points -/

/-- The timing block of a successful inference response. -/
structure Timing where
  preprocess_time : ℚ
  inference_time : ℚ
  total_time : ℚ

/-- The uniform result dict of the inference entry points; absent keys are
`none`.  `image_shape` is the multimodal `input_shapes[image]` entry. -/
structure InferResult where
  success : Bool
  error : Option String := none
  outputs : List (String × PyVal) := []
  model_name : String
  timing : Option Timing := none
  input_shape : Option (List Nat) := none
  image_shape : Option (List Nat) := none
  input_text_length : Option Nat := none
  device : Option String := none
  generated_text : Option String := none

/-- Ambient collaborators: `clock k` is the value of the k-th `time.time()`
call inside one engine method; `device` is `npu_manager.npu_device`;
`maxLength` is the text processor's configured max length (512 for the
default instance); `targetW`/`targetH` the image processor's target size
(224 for the default instance). -/
structure Env where
  clock : Nat → ℚ
  device : String
  maxLength : Nat
  targetW : Nat
  targetH : Nat

/-- The loop collecting `outputs[output_port.any_name] = result[i]`. -/
def buildOutputs (names : List String) (results : List PyVal) :
    List (String × PyVal) :=
  (names.zip results).foldl (fun d kv => dictSet d kv.1 kv.2) []

/-- The processed image tensor as a Python value: a float array carrying its
shape (its numeric contents play no role in any claim and are elided). -/
def imageTensor (shape : List Nat) : PyVal := .vArr shape []

/-- Model of `NPUInferenceEngine.infer_image`.  Absent models and failed
preprocessing return `None`; the invocation is positional — the singleton
list `[processed_image]` — and the first input port's name is computed
(raising `IndexError` when the model has no inputs) but never used. -/
def infer_image (env : Env) (s : EngineState) (model_name : String)
    (image_input : ImageInput) (maintainAspect : Bool) : Option InferResult :=
  match dictFind s.models model_name with
  | none => none
  | some cm =>
    match image_process_for_inference image_input maintainAspect env.targetW env.targetH with
    | none => none
    | some shape =>
      if cm.inputNames.isEmpty then
        some { success := false, error := some "IndexError", model_name := model_name }
      else
        match cm.invokePos [imageTensor shape] with
        | .exn msg => some { success := false, error := some msg, model_name := model_name }
        | .ok results =>
          if results.length < cm.outputNames.length then
            some { success := false, error := some "IndexError", model_name := model_name }
          else
            some { success := true,
                   outputs := buildOutputs cm.outputNames results,
                   model_name := model_name,
                   timing := some { preprocess_time := env.clock 1 - env.clock 0,
                                    inference_time := env.clock 3 - env.clock 2,
                                    total_time := env.clock 4 - env.clock 0 },
                   input_shape := some shape,
                   device := some env.device }

/-- The input-binding loop of `infer_text`: for each declared port, bind the
tensor under the same key of the processed text; otherwise, when `input_ids`
is present and the port is named `input`, `input_ids` or `inputs`, bind the
`input_ids` tensor. -/
def textBindLoop (portNames : List String) (processed : List (String × PyVal)) :
    List (String × PyVal) :=
  portNames.foldl (fun acc n =>
    match dictFind processed n with
    | some v => dictSet acc n v
    | none =>
      match dictFind processed "input_ids" with
      | some ids =>
        if n == "input" || n == "input_ids" || n == "inputs" then dictSet acc n ids
        else acc
      | none => acc) []

/-- Model of `NPUInferenceEngine.infer_text` (fallback tokenizer
configuration).  An absent model or an empty input binding returns `None`. -/
def infer_text (env : Env) (s : EngineState) (model_name : String)
    (text_input : String) : Option InferResult :=
  match dictFind s.models model_name with
  | none => none
  | some cm =>
    let processed := text_process_for_inference env.maxLength text_input
    let inputs := textBindLoop cm.inputNames processed
    if inputs.isEmpty then none
    else
      match cm.invokeNamed inputs with
      | .exn msg => some { success := false, error := some msg, model_name := model_name }
      | .ok results =>
        if results.length < cm.outputNames.length then
          some { success := false, error := some "IndexError", model_name := model_name }
        else
          some { success := true,
                 outputs := buildOutputs cm.outputNames results,
                 model_name := model_name,
                 timing := some { preprocess_time := env.clock 1 - env.clock 0,
                                  inference_time := env.clock 3 - env.clock 2,
                                  total_time := env.clock 4 - env.clock 0 },
                 input_text_length := some text_input.length,
                 device := some env.device }

/-- The fixed image-port substrings of the multimodal binding heuristic. -/
def image_input_names : List String := ["image", "images", "pixel_values", "input_image"]

/-- Does a port name contain, case-insensitively, one of the image-input
substrings? -/
def isImagePortName (n : String) : Bool :=
  image_input_names.any fun s => containsSub s (strLower n)

/-- The image-binding loop of `infer_multimodal`: scan the declared ports in
order and bind the image to the first image-named port (the loop `break`s). -/
def bindImagePort : List String → Option String
  | [] => none
  | p :: ps => if isImagePortName p then some p else bindImagePort ps

/-- The inputs dict after the image-binding loop. -/
def imageBindings (portNames : List String) (img : PyVal) : List (String × PyVal) :=
  match bindImagePort portNames with
  | some p => dictSet [] p img
  | none => []

/-- The inputs dict after both multimodal binding loops: the text loop binds
every port whose name is a key of the processed text, on top of the image
binding. -/
def multimodalInputs (portNames : List String) (img : PyVal)
    (processed : List (String × PyVal)) : List (String × PyVal) :=
  portNames.foldl (fun acc n =>
    match dictFind processed n with
    | some v => dictSet acc n v
    | none => acc) (imageBindings portNames img)

/-- Model of `NPUInferenceEngine.infer_multimodal`.  `logitsToText` abstracts
`process_logits_to_text` (its sampling draws from `np.random`).  When the
registered config type is `multimodal`, the text extractor runs over the
outputs; its result is attached (after conversational formatting) only when
non-empty, and extraction never changes `success`.  Fewer than two bound
inputs only logs a warning. -/
def infer_multimodal (env : Env) (logitsToText : PyVal → String) (s : EngineState)
    (model_name : String) (image_input : ImageInput) (text_input : String)
    (maintainAspect : Bool) : Option InferResult :=
  match dictFind s.models model_name with
  | none => none
  | some cm =>
    let processedImage :=
      image_process_for_inference image_input maintainAspect env.targetW env.targetH
    let processedText := text_process_for_inference env.maxLength text_input
    match processedImage with
    | none => none
    | some shape =>
      let inputs := multimodalInputs cm.inputNames (imageTensor shape) processedText
      match cm.invokeNamed inputs with
      | .exn msg => some { success := false, error := some msg, model_name := model_name }
      | .ok results =>
        if results.length < cm.outputNames.length then
          some { success := false, error := some "IndexError", model_name := model_name }
        else
          let outputs := buildOutputs cm.outputNames results
          let generated : Option String :=
            if (dictFind s.model_configs model_name).map (fun c => c.mtype) = some "multimodal" then
              let g := extract_text_from_multimodal_output logitsToText outputs
              if !g.data.isEmpty then
                let f := format_conversation_output g text_input true
                if !f.data.isEmpty then some f else none
              else none
            else none
          some { success := true,
                 outputs := outputs,
                 model_name := model_name,
                 timing := some { preprocess_time := env.clock 1 - env.clock 0,
                                  inference_time := env.clock 3 - env.clock 2,
                                  total_time := env.clock 4 - env.clock 0 },
                 image_shape := some shape,
                 input_text_length := some text_input.length,
                 device := some env.device,
                 generated_text := generated }

/-! ## NPUInferenceEngine.benchmark_model -/

structure TimingStats where
  mean_time : ℚ
  var_time : ℚ
  min_time : ℚ
  max_time : ℚ
  fps : ℚ

structure BenchReport where
  model_name : String
  model_type : String
  device : String
  iterations : Nat
  timing_stats : TimingStats

def npMean (l : List ℚ) : ℚ := l.sum / (l.length : ℚ)

def npMinList : List ℚ → ℚ
  | [] => 0
  | x :: xs => xs.foldl min x

def npMaxList : List ℚ → ℚ
  | [] => 0
  | x :: xs => xs.foldl max x

def npVariance (l : List ℚ) : ℚ :=
  ((l.map fun x => (x - npMean l) ^ 2).sum) / (l.length : ℚ)

/-- The timed loop of `benchmark_model`: `cnt` counts compiled-model
invocations made so far inside this call, and the k-th invocation takes
`dur k` seconds of wall time (the difference of the surrounding
`time.time()` pair). -/
def timedLoop (dur : Nat → ℚ) : Nat → Nat → List ℚ
  | _, 0 => []
  | cnt, n + 1 => dur cnt :: timedLoop dur (cnt + 1) n

/-- Model of `NPUInferenceEngine.benchmark_model`.  Dummy-input generation is
elided (its values do not affect the timing bookkeeping); the three warmup
invocations advance the invocation counter without recording samples.
`np.std` reports the square root of `var_time`; the variance is kept because
square roots leave `ℚ` and no claim concerns `std`.  With zero iterations
`np.min([])` raises (caught, returning `None`).  `fps` is `1 / mean`. -/
def benchmark_model (env : Env) (dur : Nat → ℚ) (s : EngineState)
    (model_name : String) (num_iterations : Nat) : Option BenchReport :=
  match dictFind s.models model_name with
  | none => none
  | some _cm =>
    match dictFind s.model_configs model_name with
    | none => none
    | some cfg =>
      if (timedLoop dur 3 num_iterations).isEmpty then none
      else
        some { model_name := model_name, model_type := cfg.mtype,
               device := env.device,
               iterations := num_iterations,
               timing_stats := { mean_time := npMean (timedLoop dur 3 num_iterations),
                                 var_time := npVariance (timedLoop dur 3 num_iterations),
                                 min_time := npMinList (timedLoop dur 3 num_iterations),
                                 max_time := npMaxList (timedLoop dur 3 num_iterations),
                                 fps := 1 / npMean (timedLoop dur 3 num_iterations) } }

/-! ## Concrete instances used by witnesses -/

/-- A fixed environment for witness instantiations. -/
def env0 : Env :=
  { clock := fun _ => 0, device := "NPU", maxLength := 8, targetW := 224, targetH := 224 }

/-- A small concrete compiled model. -/
def wCM : CompiledModel :=
  { inputNames := ["input_ids"], outputNames := ["output"],
    invokePos := fun _ => .ok [.vStr "ok"], invokeNamed := fun _ => .ok [.vStr "ok"] }

/-- A concrete multimodal model whose only output is an `embedding` vector. -/
def mmCM : CompiledModel :=
  { inputNames := ["image", "input_ids"], outputNames := ["embedding"],
    invokePos := fun _ => .ok [.vList [.vFloat (1 / 10), .vFloat (2 / 10)]],
    invokeNamed := fun _ => .ok [.vList [.vFloat (1 / 10), .vFloat (2 / 10)]] }

/-- The engine state after loading `mmCM` under the name `mm`. -/
def mmState : EngineState :=
  (load_model initEngine "mm" "m.xml" "multimodal" true (some mmCM)).2

/-- The engine state holding only `wCM` under the name `m`. -/
def okState : EngineState := ⟨[("m", wCM)], []⟩

/-- A concrete model whose invocation raises. -/
def errCM : CompiledModel :=
  { inputNames := ["in"], outputNames := ["out"],
    invokePos := fun _ => .exn "boom", invokeNamed := fun _ => .exn "boom" }

/-- The engine state after loading `errCM` under the name `m`. -/
def errState : EngineState :=
  (load_model initEngine "m" "p.xml" "vision" true (some errCM)).2

/-- A compiled model answering with the number of bound inputs; two copies
differing only in their declared port names distinguish name-directed from
positional binding. -/
def countCM (ports : List String) : CompiledModel :=
  { inputNames := ports, outputNames := ["out"],
    invokePos := fun inputs => .ok [.vInt inputs.length],
    invokeNamed := fun inputs => .ok [.vInt inputs.length] }

/-- Observation used to compare inference results without deciding equality
of arbitrary Python values: the first output value when it is an int. -/
def headOutputInt (r : Option InferResult) : Option Int :=
  r.bind fun res =>
    match res.outputs with
    | (_, PyVal.vInt n) :: _ => some n
    | _ => none

/-! ## Predicates used by the theorems -/

/-- No control characters (every codepoint at least 32). -/
abbrev NoControl (l : List Char) : Prop := ∀ c ∈ l, 32 ≤ c.toNat

/-- Every whitespace character is a plain space. -/
abbrev WsIsSpace (l : List Char) : Prop := ∀ c ∈ l, pyIsSpace c = true → c = ' '

/-- No two adjacent whitespace characters. -/
abbrev NoAdjWs (l : List Char) : Prop :=
  l.Chain' fun a b => ¬(pyIsSpace a = true ∧ pyIsSpace b = true)

/-- Single-character substitution (the effect of `str.replace` with
one-character pattern and replacement). -/
def charSubst (a b c : Char) : Char := if c == a then b else c

/-! ## Helper lemmas: run collapsing -/

theorem collapseRunsAux_eq_self {p : Char → Bool} {r : Char} :
    ∀ (b : Bool) (l : List Char), (∀ c ∈ l, p c = false) →
      collapseRunsAux p r b l = l := by
  intro b l
  induction l generalizing b with
  | nil => intro _h; rfl
  | cons a as ih =>
    intro h
    have ha : p a = false := h a (by simp)
    have tail := ih false (fun c hc => h c (by simp [hc]))
    simp [collapseRunsAux, ha, tail]

theorem mem_collapseRunsAux {p : Char → Bool} {r : Char} :
    ∀ (b : Bool) (l : List Char) (c : Char), c ∈ collapseRunsAux p r b l →
      c = r ∨ (c ∈ l ∧ p c = false) := by
  intro b l
  induction l generalizing b with
  | nil => intro c h; simp [collapseRunsAux] at h
  | cons a as ih =>
    intro c h
    by_cases ha : p a = true
    · cases b with
      | true =>
        simp only [collapseRunsAux, ha, if_true] at h
        rcases ih true c h with h1 | ⟨h2, h3⟩
        · exact Or.inl h1
        · exact Or.inr ⟨by simp [h2], h3⟩
      | false =>
        simp only [collapseRunsAux, ha, if_true] at h
        rcases List.mem_cons.mp h with h1 | h1
        · exact Or.inl h1
        · rcases ih true c h1 with h2 | ⟨h3, h4⟩
          · exact Or.inl h2
          · exact Or.inr ⟨by simp [h3], h4⟩
    · simp only [collapseRunsAux, ha, if_false] at h
      rcases List.mem_cons.mp h with h1 | h1
      · subst h1
        exact Or.inr ⟨by simp, by simpa using ha⟩
      · rcases ih false c h1 with h2 | ⟨h3, h4⟩
        · exact Or.inl h2
        · exact Or.inr ⟨by simp [h3], h4⟩

theorem head_collapseRunsAux_true {p : Char → Bool} {r : Char} :
    ∀ (l : List Char) (c : Char), (collapseRunsAux p r true l).head? = some c →
      p c = false := by
  intro l
  induction l with
  | nil => intro c h; cases h
  | cons a as ih =>
    intro c h
    have hshow : collapseRunsAux p r true (a :: as) =
        if p a = true then collapseRunsAux p r true as
        else a :: collapseRunsAux p r false as := rfl
    by_cases ha : p a = true
    · rw [hshow, if_pos ha] at h
      exact ih c h
    · rw [hshow, if_neg ha] at h
      simp only [List.head?_cons, Option.some.injEq] at h
      subst h
      simpa using ha

theorem noAdjWs_collapseRunsAux :
    ∀ (b : Bool) (l : List Char), NoAdjWs (collapseRunsAux pyIsSpace ' ' b l) := by
  intro b l
  induction l generalizing b with
  | nil => exact List.chain'_nil
  | cons a as ih =>
    by_cases ha : pyIsSpace a = true
    · cases b with
      | true =>
        show NoAdjWs (if pyIsSpace a = true then collapseRunsAux pyIsSpace ' ' true as
          else a :: collapseRunsAux pyIsSpace ' ' false as)
        rw [if_pos ha]
        exact ih true
      | false =>
        show NoAdjWs (if pyIsSpace a = true then ' ' :: collapseRunsAux pyIsSpace ' ' true as
          else a :: collapseRunsAux pyIsSpace ' ' false as)
        rw [if_pos ha]
        refine List.chain'_cons'.mpr ⟨?_, ih true⟩
        intro y hy h2
        have hy' := head_collapseRunsAux_true as y (Option.mem_def.mp hy)
        rw [h2.2] at hy'
        cases hy'
    · cases b with
      | true =>
        show NoAdjWs (if pyIsSpace a = true then collapseRunsAux pyIsSpace ' ' true as
          else a :: collapseRunsAux pyIsSpace ' ' false as)
        rw [if_neg ha]
        refine List.chain'_cons'.mpr ⟨?_, ih false⟩
        intro y _hy h2
        exact ha h2.1
      | false =>
        show NoAdjWs (if pyIsSpace a = true then ' ' :: collapseRunsAux pyIsSpace ' ' true as
          else a :: collapseRunsAux pyIsSpace ' ' false as)
        rw [if_neg ha]
        refine List.chain'_cons'.mpr ⟨?_, ih false⟩
        intro y _hy h2
        exact ha h2.1

theorem wsCollapseAux_eq_self :
    ∀ (l : List Char), WsIsSpace l → NoAdjWs l →
      ∀ (b : Bool), (b = true → ∀ c, l.head? = some c → pyIsSpace c = false) →
      collapseRunsAux pyIsSpace ' ' b l = l := by
  intro l
  induction l with
  | nil => intro _ _ b _; rfl
  | cons a as ih =>
    intro hws hadj b hb
    have hcons := List.chain'_cons'.mp hadj
    by_cases ha : pyIsSpace a = true
    · have ha' : a = ' ' := hws a (by simp) ha
      cases b with
      | true =>
        have := hb rfl a rfl
        rw [ha] at this
        cases this
      | false =>
        have hhead : ∀ c, as.head? = some c → pyIsSpace c = false := by
          intro c hc
          by_contra hcc
          exact hcons.1 c (Option.mem_def.mpr hc) ⟨ha, by simpa using hcc⟩
        have tail := ih (fun c hc h => hws c (by simp [hc]) h) hcons.2 true
          (fun _ => hhead)
        show (if pyIsSpace a = true then ' ' :: collapseRunsAux pyIsSpace ' ' true as
          else a :: collapseRunsAux pyIsSpace ' ' false as) = a :: as
        rw [if_pos ha, tail, ha']
    · have tail := ih (fun c hc h => hws c (by simp [hc]) h) hcons.2 false
        (fun h => absurd h (by simp))
      simp [collapseRunsAux, ha, tail]

/-! ## Helper lemmas: stripping -/

theorem head_dropWhile_not {p : Char → Bool} :
    ∀ (l : List Char) (c : Char), (l.dropWhile p).head? = some c → p c = false := by
  intro l
  induction l with
  | nil => intro c h; simp [List.dropWhile] at h
  | cons a as ih =>
    intro c h
    by_cases hp : p a = true
    · rw [List.dropWhile_cons, if_pos hp] at h
      exact ih c h
    · rw [List.dropWhile_cons, if_neg hp] at h
      simp only [List.head?_cons, Option.some.injEq] at h
      subst h
      simpa using hp

theorem mem_pyStripList {l : List Char} {c : Char} (h : c ∈ pyStripList l) : c ∈ l := by
  unfold pyStripList at h
  rw [List.mem_reverse] at h
  have h1 := (List.dropWhile_sublist pyIsSpace).subset h
  rw [List.mem_reverse] at h1
  exact (List.dropWhile_sublist pyIsSpace).subset h1

theorem chain'_pyStripList {R : Char → Char → Prop} (hsym : ∀ a b, R a b → R b a)
    {l : List Char} (h : l.Chain' R) : (pyStripList l).Chain' R := by
  unfold pyStripList
  have h1 : (l.dropWhile pyIsSpace).Chain' R := h.suffix (List.dropWhile_suffix _)
  have h2 : (l.dropWhile pyIsSpace).reverse.Chain' R := by
    rw [List.chain'_reverse]
    exact h1.imp fun a b hab => hsym a b hab
  have h3 := h2.suffix (List.dropWhile_suffix pyIsSpace)
  rw [List.chain'_reverse]
  exact h3.imp fun a b hab => hsym a b hab

theorem getLast?_of_suffix {m z : List Char} (hs : m <:+ z) (hm : m ≠ []) :
    m.getLast? = z.getLast? := by
  obtain ⟨t, rfl⟩ := hs
  exact (List.getLast?_append_of_ne_nil t hm).symm

theorem head_pyStripList {l : List Char} {c : Char}
    (h : (pyStripList l).head? = some c) : pyIsSpace c = false := by
  unfold pyStripList at h
  rw [List.head?_reverse] at h
  by_cases hm : (l.dropWhile pyIsSpace).reverse.dropWhile pyIsSpace = []
  · rw [hm] at h; cases h
  · rw [getLast?_of_suffix (List.dropWhile_suffix _) hm, List.getLast?_reverse] at h
    exact head_dropWhile_not _ c h

theorem getLast_pyStripList {l : List Char} {c : Char}
    (h : (pyStripList l).getLast? = some c) : pyIsSpace c = false := by
  unfold pyStripList at h
  rw [List.getLast?_reverse] at h
  exact head_dropWhile_not _ c h

theorem dropWhile_eq_self_of_head {p : Char → Bool} {l : List Char}
    (h : ∀ c, l.head? = some c → p c = false) : l.dropWhile p = l := by
  cases l with
  | nil => rfl
  | cons a as =>
    rw [List.dropWhile_cons, if_neg]
    simp [h a rfl]

theorem pyStripList_eq_self {l : List Char}
    (h1 : ∀ c, l.head? = some c → pyIsSpace c = false)
    (h2 : ∀ c, l.getLast? = some c → pyIsSpace c = false) : pyStripList l = l := by
  unfold pyStripList
  rw [dropWhile_eq_self_of_head h1]
  rw [dropWhile_eq_self_of_head
    (fun c hc => h2 c (by rwa [List.head?_reverse] at hc))]
  exact List.reverse_reverse l

/-! ## Helper lemmas: the replace calls -/

theorem replaceAllFuel_singleton (a b : Char) :
    ∀ (n : Nat) (l : List Char), l.length ≤ n →
      replaceAllFuel [a] [b] n l = l.map (charSubst a b) := by
  intro n
  induction n with
  | zero =>
    intro l h
    have : l = [] := List.length_eq_zero.mp (Nat.le_zero.mp h)
    subst this; rfl
  | succ n ih =>
    intro l h
    cases l with
    | nil => rfl
    | cons c cs =>
      have hlen : cs.length ≤ n := by
        simpa using Nat.succ_le_succ_iff.mp (by simpa using h)
      by_cases hac : c = a
      · subst hac
        show (if ([c] : List Char).isPrefixOf (c :: cs) = true
            then [b] ++ replaceAllFuel [c] [b] n ((c :: cs).drop ([c] : List Char).length)
            else c :: replaceAllFuel [c] [b] n cs) = List.map (charSubst c b) (c :: cs)
        rw [if_pos (by simp [List.isPrefixOf])]
        simp only [List.length_cons, List.length_nil, List.drop_succ_cons, List.drop_zero,
          List.map_cons, List.singleton_append, ih cs hlen]
        simp [charSubst]
      · show (if ([a] : List Char).isPrefixOf (c :: cs) = true
            then [b] ++ replaceAllFuel [a] [b] n ((c :: cs).drop ([a] : List Char).length)
            else c :: replaceAllFuel [a] [b] n cs) = List.map (charSubst a b) (c :: cs)
        rw [if_neg (by simp [List.isPrefixOf]; exact fun hh => hac hh.symm)]
        simp only [List.map_cons, ih cs hlen]
        simp [charSubst, hac]

theorem replaceAll_singleton (a b : Char) (l : List Char) :
    replaceAll l [a] [b] = l.map (charSubst a b) := by
  unfold replaceAll
  rw [if_neg (by simp)]
  exact replaceAllFuel_singleton a b l.length l le_rfl

theorem charSubst_self (a c : Char) : charSubst a a c = c := by
  unfold charSubst
  split_ifs with h
  · exact (eq_of_beq h).symm
  · rfl

theorem replaceAll_self (a : Char) (l : List Char) : replaceAll l [a] [a] = l := by
  rw [replaceAll_singleton]
  calc l.map (charSubst a a) = l.map id :=
        List.map_congr_left fun c _ => charSubst_self a c
    _ = l := List.map_id l

theorem subset_of_isPrefixOf {pat l : List Char} (h : pat.isPrefixOf l = true) :
    ∀ c ∈ pat, c ∈ l := fun _ hc =>
  (List.isPrefixOf_iff_prefix.mp h).subset hc

theorem replaceAllFuel_no_occ {pat rep : List Char} {x : Char} (hx : x ∈ pat) :
    ∀ (n : Nat) (l : List Char), x ∉ l → replaceAllFuel pat rep n l = l := by
  intro n
  induction n with
  | zero => intro l _; cases l <;> rfl
  | succ n ih =>
    intro l hl
    cases l with
    | nil => rfl
    | cons c cs =>
      have hpre : pat.isPrefixOf (c :: cs) = false := by
        cases hp : pat.isPrefixOf (c :: cs) with
        | false => rfl
        | true => exact absurd (subset_of_isPrefixOf hp x hx) hl
      show (if pat.isPrefixOf (c :: cs) = true
          then rep ++ replaceAllFuel pat rep n ((c :: cs).drop pat.length)
          else c :: replaceAllFuel pat rep n cs) = c :: cs
      rw [if_neg (by simp [hpre])]
      rw [ih cs (fun hcs => hl (List.mem_cons_of_mem c hcs))]

theorem replaceAll_no_occ {pat rep : List Char} {x : Char} (hx : x ∈ pat)
    {l : List Char} (hl : x ∉ l) : replaceAll l pat rep = l := by
  unfold replaceAll
  split_ifs with h
  · rfl
  · exact replaceAllFuel_no_occ hx l.length l hl

theorem string_data_mk (l : List Char) : (String.mk l).data = l := rfl

theorem isNl_eq_false_of_ge32 {c : Char} (h : 32 ≤ c.toNat) : isNl c = false := by
  unfold isNl
  simp only [beq_eq_false_iff_ne, ne_eq]
  intro hh
  subst hh
  exact absurd h (by decide)

/-- Structural facts about the output of `cleanTextList` on control-free,
double-quote-free input: whitespace is normalized to single interior spaces,
no control or double-quote characters remain, and the ends are not
whitespace. -/
theorem cleanTextList_props {l : List Char} (h : NoControl l) (hq : '"' ∉ l) :
    WsIsSpace (cleanTextList l) ∧ NoAdjWs (cleanTextList l) ∧
    NoControl (cleanTextList l) ∧ ('"' ∉ cleanTextList l) ∧
    (∀ c, (cleanTextList l).head? = some c → pyIsSpace c = false) ∧
    (∀ c, (cleanTextList l).getLast? = some c → pyIsSpace c = false) := by
  have h0 : NoControl (pyStripList l) := fun c hc => h c (mem_pyStripList hc)
  have h1 : collapseRuns isNl ' ' (pyStripList l) = pyStripList l :=
    collapseRunsAux_eq_self false _ (fun c hc => isNl_eq_false_of_ge32 (h0 c hc))
  have hm_ws : WsIsSpace (collapseRuns pyIsSpace ' ' (pyStripList l)) := by
    intro c hc hw
    rcases mem_collapseRunsAux false _ c hc with h' | ⟨_, hp⟩
    · exact h'
    · rw [hw] at hp; cases hp
  have hm_adj : NoAdjWs (collapseRuns pyIsSpace ' ' (pyStripList l)) :=
    noAdjWs_collapseRunsAux false _
  have hm_nc : NoControl (collapseRuns pyIsSpace ' ' (pyStripList l)) := by
    intro c hc
    rcases mem_collapseRunsAux false _ c hc with h' | ⟨h'', _⟩
    · subst h'; decide
    · exact h0 c h''
  have hm_q : '"' ∉ collapseRuns pyIsSpace ' ' (pyStripList l) := by
    intro hc
    rcases mem_collapseRunsAux false _ _ hc with h' | ⟨h'', _⟩
    · exact absurd h' (by decide)
    · exact hq (mem_pyStripList h'')
  have hpat : replaceAll (collapseRuns pyIsSpace ' ' (pyStripList l))
      mangledQuotePat ['\''] = collapseRuns pyIsSpace ' ' (pyStripList l) :=
    replaceAll_no_occ (show '"' ∈ mangledQuotePat by decide) hm_q
  have hfil : (collapseRuns pyIsSpace ' ' (pyStripList l)).filter
      (fun c => decide (32 ≤ c.toNat)) =
      collapseRuns pyIsSpace ' ' (pyStripList l) :=
    List.filter_eq_self.mpr (fun c hc => decide_eq_true (hm_nc c hc))
  have key0 : cleanTextList l =
      pyStripList ((replaceAll (replaceAll (replaceAll
        (collapseRuns pyIsSpace ' ' (collapseRuns isNl ' ' (pyStripList l)))
        ['"'] ['"']) ['"'] ['"']) mangledQuotePat ['\'']).filter
        (fun c => decide (32 ≤ c.toNat))) := rfl
  have key : cleanTextList l =
      pyStripList (collapseRuns pyIsSpace ' ' (pyStripList l)) := by
    rw [key0, h1, replaceAll_self, replaceAll_self, hpat, hfil]
  rw [key]
  refine ⟨?_, ?_, ?_, ?_, ?_, ?_⟩
  · intro c hc hw
    exact hm_ws c (mem_pyStripList hc) hw
  · exact chain'_pyStripList (fun a b hab h2 => hab ⟨h2.2, h2.1⟩) hm_adj
  · intro c hc
    exact hm_nc c (mem_pyStripList hc)
  · intro hc
    exact hm_q (mem_pyStripList hc)
  · intro c hc
    exact head_pyStripList hc
  · intro c hc
    exact getLast_pyStripList hc

/-- Any list with the structural facts above is a fixed point of
`cleanTextList`. -/
theorem cleanTextList_eq_self {m : List Char}
    (p1 : WsIsSpace m) (p2 : NoAdjWs m) (p3 : NoControl m)
    (p4 : '"' ∉ m)
    (p5 : ∀ c, m.head? = some c → pyIsSpace c = false)
    (p6 : ∀ c, m.getLast? = some c → pyIsSpace c = false) :
    cleanTextList m = m := by
  have hstrip : pyStripList m = m := pyStripList_eq_self p5 p6
  have hnl : collapseRuns isNl ' ' m = m :=
    collapseRunsAux_eq_self false m (fun c hc => isNl_eq_false_of_ge32 (p3 c hc))
  have hws2 : collapseRuns pyIsSpace ' ' m = m :=
    wsCollapseAux_eq_self m p1 p2 false (fun hb => absurd hb (by simp))
  have hpat : replaceAll m mangledQuotePat ['\''] = m :=
    replaceAll_no_occ (show '"' ∈ mangledQuotePat by decide) p4
  have hfil : m.filter (fun c => decide (32 ≤ c.toNat)) = m :=
    List.filter_eq_self.mpr (fun c hc => decide_eq_true (p3 c hc))
  have key0 : cleanTextList m =
      pyStripList ((replaceAll (replaceAll (replaceAll
        (collapseRuns pyIsSpace ' ' (collapseRuns isNl ' ' (pyStripList m)))
        ['"'] ['"']) ['"'] ['"']) mangledQuotePat ['\'']).filter
        (fun c => decide (32 ≤ c.toNat))) := rfl
  rw [key0, hstrip, hnl, hws2, replaceAll_self, replaceAll_self, hpat, hfil, hstrip]

theorem clean_text_mk_of_ne_empty (X : List Char) (hy : ¬X.isEmpty = true) :
    clean_text (String.mk X) = String.mk (cleanTextList X) := by
  show (if X.isEmpty = true then "" else String.mk (cleanTextList X)) =
    String.mk (cleanTextList X)
  rw [if_neg hy]

set_option maxHeartbeats 1000000 in
theorem clean_text_cex_step1 : clean_text "a \x01 b" = "a  b" := by rfl

set_option maxHeartbeats 1000000 in
theorem clean_text_cex_step2 : clean_text "a  b" = "a b" := by rfl

/-- C6, counterexample: `clean_text` is not idempotent as claimed.  On
`"a \x01 b"` the first pass collapses nothing (the single spaces flank a
non-whitespace control character) and only then deletes the control
character, leaving a double space that a second pass collapses. -/
theorem clean_text_not_idempotent_cex :
    clean_text (clean_text "a \x01 b") ≠ clean_text "a \x01 b" := by
  rw [clean_text_cex_step1, clean_text_cex_step2]
  decide

/-- Concrete evidence for the lexing of the second quote line: applied to the
fifteen-character pattern itself, `clean_text` returns a single straight
apostrophe. -/
theorem clean_text_mangled_line :
    (clean_text (String.mk mangledQuotePat)).data = ['\''] := by rfl

set_option maxHeartbeats 1000000 in
/-- C6 (amended): for every string that contains no control character (all
codepoints at least 32) and no straight double-quote character,
`TextProcessor.clean_text` is idempotent:
`clean_text (clean_text x) = clean_text x`.  The double-quote exclusion is
forced by the second quote line: its fifteen-character pattern contains a
double quote, and no stage of the pipeline introduces one, so on
double-quote-free input that replace is the identity on both passes. -/
theorem clean_text_idempotent_of_no_control (s : String)
    (h : ∀ c ∈ s.data, 32 ≤ c.toNat) (hq : '"' ∉ s.data) :
    clean_text (clean_text s) = clean_text s := by
  by_cases hs : s.data.isEmpty
  · have h1 : clean_text s = "" := by
      unfold clean_text
      rw [if_pos hs]
    rw [h1]
    rfl
  · have h1 : clean_text s = String.mk (cleanTextList s.data) := by
      unfold clean_text
      rw [if_neg hs]
    have hp := cleanTextList_props h hq
    rw [h1]
    by_cases hy : (cleanTextList s.data).isEmpty
    · have h2 : cleanTextList s.data = [] := by
        cases hcase : cleanTextList s.data with
        | nil => rfl
        | cons x xs => rw [hcase] at hy; cases hy
      rw [h2]
      rfl
    · rw [clean_text_mk_of_ne_empty _ hy,
        cleanTextList_eq_self hp.1 hp.2.1 hp.2.2.1 hp.2.2.2.1 hp.2.2.2.2.1 hp.2.2.2.2.2]

set_option maxHeartbeats 1000000 in
/-- Witness for the amended C6 at a concrete control-free, double-quote-free
string (the curly quotes in it are untouched by `clean_text`). -/
theorem clean_text_idempotent_of_no_control_witness :
    clean_text (clean_text " Hello  world \u201cquote\u201d  x ") =
      clean_text " Hello  world \u201cquote\u201d  x " :=
  clean_text_idempotent_of_no_control _ (by decide) (by decide)

/-! ## C2: extractor selection on the concrete output map -/

set_option maxHeartbeats 1000000 in
/-- C2: on the output map with "answer" mapped to "42" and "some_logits"
mapped to the float list [0.1, 5.0, 0.3], the extractor ranks the "answer"
candidate (priority 10) first — ahead of "some_logits" (priority 1) — and
returns the cleaned string "42.", which ends in terminal punctuation.  The
result does not depend on the logits sampler. -/
theorem extract_answer_over_logits :
    ∀ logitsToText : PyVal → String,
      (sortCandidates (buildCandidates
          [("answer", .vStr "42"),
           ("some_logits", .vList [.vFloat (1/10), .vFloat 5, .vFloat (3/10)])])).head? =
        some ⟨"answer", .vStr "42", 10⟩ ∧
      extract_text_from_multimodal_output logitsToText
          [("answer", .vStr "42"),
           ("some_logits", .vList [.vFloat (1/10), .vFloat 5, .vFloat (3/10)])] = "42." := by
  intro f
  exact ⟨rfl, rfl⟩

/-! ## C5: character-codec round trip -/

theorem filter_pos_replicate_zero (n : Nat) :
    (List.replicate n (0 : ℚ)).filter (fun t => decide (0 < t)) = [] := by
  induction n with
  | zero => rfl
  | succ n ih => simp [List.replicate_succ, List.filter_cons, ih]

set_option maxHeartbeats 1000000 in
/-- C5: tokenizing "Hi" with the character-codec fallback yields input_ids
beginning [72, 105] and zero-padded to total length exactly L (for any
configured max length L admitting both characters), and the fallback decoder
maps the positive ids back to their characters, recovering exactly "Hi". -/
theorem simple_tokenize_decode_roundtrip (L : Nat) (hL : 2 ≤ L) :
    dictFind (simple_tokenize L "Hi") "input_ids" =
      some (.vArr [1, L] ((72 : ℚ) :: (105 : ℚ) :: List.replicate (L - 2) 0)) ∧
    ((72 : ℚ) :: (105 : ℚ) :: List.replicate (L - 2) 0).length = L ∧
    decode_tokens (.vArr [1, L] ((72 : ℚ) :: (105 : ℚ) :: List.replicate (L - 2) 0)) =
      "Hi" := by
  have hdata : (clean_text "Hi").data = ['H', 'i'] := rfl
  have htake : (clean_text "Hi").data.take L = ['H', 'i'] := by
    rw [hdata]
    exact List.take_of_length_le (by simpa using hL)
  refine ⟨?_, ?_, ?_⟩
  · have hids : simple_tokenize L "Hi" =
        padTokens L [(72 : Int), 105] := by
      unfold simple_tokenize
      rw [htake]
      rfl
    have hpacked : padTokens L [(72 : Int), 105] =
        [("input_ids", PyVal.vArr [1, L]
            ((72 : ℚ) :: (105 : ℚ) :: List.replicate (L - 2) 0)),
         ("attention_mask", PyVal.vArr [1, L]
            ((1 : ℚ) :: (1 : ℚ) :: List.replicate (L - 2) 0))] := by
      unfold padTokens
      norm_num [List.map_append, List.map_replicate]
    rw [hids, hpacked]
    rfl
  · simp only [List.length_cons, List.length_replicate]
    omega
  · have step1 : decode_tokens (PyVal.vArr [1, L]
        ((72 : ℚ) :: (105 : ℚ) :: List.replicate (L - 2) 0)) =
        (match (((72 : ℚ) :: (105 : ℚ) :: List.replicate (L - 2) 0).filter
            (fun t => decide (0 < t))).mapM (fun t => pyChr (pyInt t)) with
        | some cs => String.mk cs
        | none => "") := rfl
    have hfil : ((72 : ℚ) :: (105 : ℚ) :: List.replicate (L - 2) 0).filter
        (fun t => decide (0 < t)) = [(72 : ℚ), 105] := by
      simp only [List.filter_cons]
      norm_num [filter_pos_replicate_zero]
    have hmap : ([(72 : ℚ), 105]).mapM (fun t => pyChr (pyInt t)) =
        some ['H', 'i'] := by decide
    rw [step1, hfil, hmap]

set_option maxHeartbeats 1000000 in
/-- Witness for C5 at the default configured length L = 512. -/
theorem simple_tokenize_decode_roundtrip_witness :
    dictFind (simple_tokenize 512 "Hi") "input_ids" =
      some (.vArr [1, 512] ((72 : ℚ) :: (105 : ℚ) :: List.replicate (512 - 2) 0)) ∧
    ((72 : ℚ) :: (105 : ℚ) :: List.replicate (512 - 2) 0).length = 512 ∧
    decode_tokens
      (.vArr [1, 512] ((72 : ℚ) :: (105 : ℚ) :: List.replicate (512 - 2) 0)) =
      "Hi" :=
  simple_tokenize_decode_roundtrip 512 (by norm_num)

/-! ## C7: multimodal image-port binding -/

theorem bindImagePort_none_iff :
    ∀ ports : List String,
      bindImagePort ports = none ↔ ∀ p ∈ ports, isImagePortName p = false := by
  intro ports
  induction ports with
  | nil => simp [bindImagePort]
  | cons p0 ps ih =>
    have hstep : bindImagePort (p0 :: ps) =
        if isImagePortName p0 = true then some p0 else bindImagePort ps := rfl
    by_cases h0 : isImagePortName p0 = true
    · constructor
      · intro h
        rw [hstep, if_pos h0] at h
        cases h
      · intro h
        exact absurd (h p0 (by simp)) (by simp [h0])
    · have hstep : bindImagePort (p0 :: ps) =
          if isImagePortName p0 = true then some p0 else bindImagePort ps := rfl
      rw [hstep, if_neg h0, ih]
      constructor
      · intro h p hp
        rcases List.mem_cons.mp hp with rfl | hp2
        · simpa using h0
        · exact h p hp2
      · intro h p hp
        exact h p (by simp [hp])

theorem bindImagePort_some_spec :
    ∀ (ports : List String) (p : String), bindImagePort ports = some p →
      isImagePortName p = true ∧
      ∃ pre post, ports = pre ++ p :: post ∧ ∀ q ∈ pre, isImagePortName q = false := by
  intro ports
  induction ports with
  | nil => intro p h; cases h
  | cons p0 ps ih =>
    intro p h
    have hstep : bindImagePort (p0 :: ps) =
        if isImagePortName p0 = true then some p0 else bindImagePort ps := rfl
    by_cases h0 : isImagePortName p0 = true
    · rw [hstep, if_pos h0] at h
      injection h with h
      subst h
      exact ⟨h0, [], ps, rfl, by simp⟩
    · rw [hstep, if_neg h0] at h
      have hspec := ih p h
      rcases hspec with ⟨hm, pre, post, heq, hpre⟩
      refine ⟨hm, p0 :: pre, post, by simp [heq], ?_⟩
      intro q hq
      rcases List.mem_cons.mp hq with rfl | hq2
      · simpa using h0
      · exact hpre q hq2

/-- C7: in multimodal inference, over any ordered list of declared input
ports, the image tensor is bound to exactly the first port whose name
contains (case-insensitively) one of the image substrings — every port before
it fails the test and it alone receives the image tensor — and when no port
name matches, no port receives the image at all. -/
theorem multimodal_image_binding_first_match :
    ∀ (ports : List String) (img : PyVal),
      (bindImagePort ports = none →
        imageBindings ports img = [] ∧ ∀ p ∈ ports, isImagePortName p = false) ∧
      (∀ p, bindImagePort ports = some p →
        imageBindings ports img = [(p, img)] ∧ isImagePortName p = true ∧
        ∃ pre post, ports = pre ++ p :: post ∧
          ∀ q ∈ pre, isImagePortName q = false) := by
  intro ports img
  constructor
  · intro h
    refine ⟨?_, (bindImagePort_none_iff ports).mp h⟩
    unfold imageBindings
    rw [h]
  · intro p hp
    have hspec := bindImagePort_some_spec ports p hp
    refine ⟨?_, hspec.1, hspec.2⟩
    unfold imageBindings
    rw [hp]
    rfl

/-- Witness for C7 at a concrete port list: the first matching port (the
case-insensitive "my_PIXEL_values") alone receives the image. -/
theorem multimodal_image_binding_first_match_witness :
    imageBindings ["token_ids", "my_PIXEL_values", "image"] (.vStr "img") =
      [("my_PIXEL_values", .vStr "img")] ∧
    isImagePortName "my_PIXEL_values" = true ∧
    ∃ pre post, ["token_ids", "my_PIXEL_values", "image"] =
      pre ++ "my_PIXEL_values" :: post ∧ ∀ q ∈ pre, isImagePortName q = false :=
  (multimodal_image_binding_first_match ["token_ids", "my_PIXEL_values", "image"]
    (.vStr "img")).2 "my_PIXEL_values" rfl

/-! ## C9: registry key alignment -/

theorem dictContains_eq_keys {α : Type} (d : List (String × α)) (k : String) :
    dictContains d k = (d.map Prod.fst).any (fun x => x == k) := by
  unfold dictContains
  induction d with
  | nil => rfl
  | cons kv d ih => simp [List.any_cons, ih]

theorem fst_dictSet_update {α : Type} (k : String) (v : α) (kv : String × α) :
    (if kv.1 == k then (k, v) else kv).1 = kv.1 := by
  by_cases h : kv.1 == k
  · rw [if_pos h]
    exact (eq_of_beq h).symm
  · rw [if_neg h]

theorem keys_dictSet {α : Type} (d : List (String × α)) (k : String) (v : α) :
    (dictSet d k v).map Prod.fst =
      if dictContains d k = true then d.map Prod.fst else d.map Prod.fst ++ [k] := by
  unfold dictSet
  by_cases h : dictContains d k = true
  · rw [if_pos h, if_pos h, List.map_map]
    exact List.map_congr_left fun kv _ => fst_dictSet_update k v kv
  · rw [if_neg h, if_neg h, List.map_append]
    rfl

theorem keys_dictErase {α : Type} (d : List (String × α)) (k : String) :
    (dictErase d k).map Prod.fst = (d.map Prod.fst).filter (fun x => !(x == k)) := by
  unfold dictErase
  induction d with
  | nil => rfl
  | cons kv d ih =>
    by_cases h : kv.1 == k
    · simp [List.filter_cons, h, ih]
    · simp [List.filter_cons, h, ih]

theorem dictContains_dictErase {α : Type} (d : List (String × α)) (k : String) :
    dictContains (dictErase d k) k = false := by
  rw [dictContains_eq_keys, keys_dictErase]
  induction (d.map Prod.fst) with
  | nil => rfl
  | cons x xs ih =>
    by_cases h : x == k
    · simp [List.filter_cons, h, ih]
    · simp [List.filter_cons, h, ih]

/-- Single-step preservation of the key alignment between the two registry
dicts. -/
theorem keysAligned_step (s : EngineState)
    (h : s.models.map Prod.fst = s.model_configs.map Prod.fst) (op : EngineOp) :
    (stepEngine s op).models.map Prod.fst =
      (stepEngine s op).model_configs.map Prod.fst := by
  cases op with
  | load n p ty pe cm =>
    cases pe with
    | false => exact h
    | true =>
      cases cm with
      | none => exact h
      | some c =>
        show (dictSet s.models n c).map Prod.fst =
          (dictSet s.model_configs n
            { mtype := ty, mpath := p,
              inputs := c.inputNames, outputs := c.outputNames }).map Prod.fst
        rw [keys_dictSet, keys_dictSet, dictContains_eq_keys, dictContains_eq_keys, h]
  | unload n =>
    by_cases h1 : dictContains s.models n = true
    · have h2 : dictContains s.model_configs n = true := by
        rw [dictContains_eq_keys] at h1 ⊢
        rw [← h]
        exact h1
      have hstep : stepEngine s (.unload n) =
          ⟨dictErase s.models n, dictErase s.model_configs n⟩ := by
        show (unload_model s n).2 = _
        unfold unload_model
        rw [if_pos h1, if_pos h2]
      rw [hstep, keys_dictErase, keys_dictErase, h]
    · have hstep : stepEngine s (.unload n) = s := by
        show (unload_model s n).2 = _
        unfold unload_model
        rw [if_neg h1]
      rw [hstep]
      exact h

/-- C9: after any sequence of load/unload operations from the initial state,
`models` and `model_configs` carry exactly the same key sequence; a
successful load registers the name in both maps (overwriting in place), a
failed load leaves the state unchanged, and a successful unload removes the
name from both maps. -/
theorem registry_keys_aligned :
    (∀ ops : List EngineOp,
      (runEngine ops).models.map Prod.fst =
        (runEngine ops).model_configs.map Prod.fst) ∧
    (∀ (s : EngineState) (n p ty : String) (pe : Bool) (cm : Option CompiledModel)
       (s' : EngineState), load_model s n p ty pe cm = (true, s') →
      ∃ c, cm = some c ∧
        s'.models = dictSet s.models n c ∧
        s'.model_configs = dictSet s.model_configs n
          { mtype := ty, mpath := p, inputs := c.inputNames,
            outputs := c.outputNames }) ∧
    (∀ (s : EngineState) (n p ty : String) (pe : Bool) (cm : Option CompiledModel)
       (s' : EngineState), load_model s n p ty pe cm = (false, s') → s' = s) ∧
    (∀ (s : EngineState) (n : String) (s' : EngineState),
      unload_model s n = (true, s') →
      dictContains s'.models n = false ∧ dictContains s'.model_configs n = false) := by
  refine ⟨?_, ?_, ?_, ?_⟩
  · intro ops
    have main : ∀ (l : List EngineOp) (s : EngineState),
        s.models.map Prod.fst = s.model_configs.map Prod.fst →
        (l.foldl stepEngine s).models.map Prod.fst =
          (l.foldl stepEngine s).model_configs.map Prod.fst := by
      intro l
      induction l with
      | nil => intro s hs; exact hs
      | cons op l ih =>
        intro s hs
        exact ih (stepEngine s op) (keysAligned_step s hs op)
    exact main ops initEngine rfl
  · intro s n p ty pe cm s' hload
    cases pe with
    | false => cases hload
    | true =>
      cases cm with
      | none => cases hload
      | some c =>
        refine ⟨c, rfl, ?_, ?_⟩
        · have := congrArg (fun x => x.2.models) hload
          exact this.symm
        · have := congrArg (fun x => x.2.model_configs) hload
          exact this.symm
  · intro s n p ty pe cm s' hload
    cases pe with
    | false =>
      have := congrArg (fun x => x.2) hload
      exact this.symm
    | true =>
      cases cm with
      | none =>
        have := congrArg (fun x => x.2) hload
        exact this.symm
      | some c => cases hload
  · intro s n s' hun
    unfold unload_model at hun
    by_cases h1 : dictContains s.models n = true
    · rw [if_pos h1] at hun
      by_cases h2 : dictContains s.model_configs n = true
      · rw [if_pos h2] at hun
        have := congrArg (fun x => x.2) hun
        simp only at this
        rw [← this]
        exact ⟨dictContains_dictErase _ _, dictContains_dictErase _ _⟩
      · rw [if_neg h2] at hun
        cases hun
    · rw [if_neg h1] at hun
      cases hun

/-- Witness for C9: a concrete load/unload run, a concrete successful load, a
concrete failed load, and a concrete successful unload. -/
theorem registry_keys_aligned_witness :
    ((runEngine [.load "m" "p.xml" "vision" true (some wCM), .unload "m"]).models.map
        Prod.fst =
      (runEngine [.load "m" "p.xml" "vision" true (some wCM),
        .unload "m"]).model_configs.map Prod.fst) ∧
    (∃ c, some wCM = some c ∧
      ((load_model initEngine "m" "p.xml" "vision" true (some wCM)).2).models =
        dictSet initEngine.models "m" c ∧
      ((load_model initEngine "m" "p.xml" "vision" true (some wCM)).2).model_configs =
        dictSet initEngine.model_configs "m"
          { mtype := "vision", mpath := "p.xml", inputs := c.inputNames,
            outputs := c.outputNames }) ∧
    ((load_model errState "m" "p.xml" "vision" false (some wCM)).2 = errState) ∧
    (dictContains ((unload_model errState "m").2).models "m" = false ∧
      dictContains ((unload_model errState "m").2).model_configs "m" = false) := by
  refine ⟨registry_keys_aligned.1 _, ?_, ?_, ?_⟩
  · exact registry_keys_aligned.2.1 initEngine "m" "p.xml" "vision" true (some wCM) _ rfl
  · exact registry_keys_aligned.2.2.1 errState "m" "p.xml" "vision" false (some wCM) _ rfl
  · exact registry_keys_aligned.2.2.2 errState "m" _ rfl


/-! ## C4: maintain-aspect preprocessing yields the exact target shape -/

theorem cv2ResizeShape_pos {img : ImgShape} {tw th : Nat}
    (htw : 0 < tw) (hth : 0 < th) (hh : 0 < img.h) (hw : 0 < img.w) :
    cv2ResizeShape img tw th = some ⟨th, tw, img.c⟩ := by
  unfold cv2ResizeShape
  rw [if_neg]
  push_neg
  exact ⟨by omega, by omega, by omega, by omega⟩

theorem scaledDim_le_of_scale_le {d t : Nat} {sc : ℚ} (hd : 0 < d)
    (hsc : sc ≤ (t : ℚ) / (d : ℚ)) : scaledDim d sc ≤ t := by
  unfold scaledDim
  have hdq : (0 : ℚ) < (d : ℚ) := by exact_mod_cast hd
  have h1 : (d : ℚ) * sc ≤ (t : ℚ) := by
    calc (d : ℚ) * sc ≤ (d : ℚ) * ((t : ℚ) / (d : ℚ)) :=
          mul_le_mul_of_nonneg_left hsc (le_of_lt hdq)
      _ = (t : ℚ) := by field_simp
  have h2 : ⌊(d : ℚ) * sc⌋ ≤ (t : Int) := by
    calc ⌊(d : ℚ) * sc⌋ ≤ ⌊(t : ℚ)⌋ := Int.floor_le_floor h1
      _ = (t : Int) := Int.floor_natCast t
  calc (⌊(d : ℚ) * sc⌋).toNat ≤ ((t : Int)).toNat := Int.toNat_le_toNat h2
    _ = t := Int.toNat_natCast t

theorem resizeMaintainAspect_shape (h w T : Nat) (hh : 0 < h) (hw : 0 < w)
    (hT : 0 < T) : resizeMaintainAspect ⟨h, w, 3⟩ T T = some ⟨T, T, 3⟩ := by
  have hfall : cv2ResizeShape ⟨h, w, 3⟩ T T = some ⟨T, T, 3⟩ :=
    cv2ResizeShape_pos hT hT hh hw
  have hscw : aspectScale h w T T ≤ (T : ℚ) / (w : ℚ) := min_le_left _ _
  have hsch : aspectScale h w T T ≤ (T : ℚ) / (h : ℚ) := min_le_right _ _
  have hbw : scaledDim w (aspectScale h w T T) ≤ T := scaledDim_le_of_scale_le hw hscw
  have hbh : scaledDim h (aspectScale h w T T) ≤ T := scaledDim_le_of_scale_le hh hsch
  unfold resizeMaintainAspect
  rw [if_neg (by simp [hw.ne', hh.ne'])]
  by_cases hz : scaledDim w (aspectScale h w T T) = 0 ∨
      scaledDim h (aspectScale h w T T) = 0
  · have hcv : cv2ResizeShape ⟨h, w, 3⟩ (scaledDim w (aspectScale h w T T))
        (scaledDim h (aspectScale h w T T)) = none := by
      unfold cv2ResizeShape
      rw [if_pos]
      rcases hz with hz | hz
      · exact Or.inl hz
      · exact Or.inr (Or.inl hz)
    simp only [hcv]
    exact hfall
  · push_neg at hz
    have hcv : cv2ResizeShape ⟨h, w, 3⟩ (scaledDim w (aspectScale h w T T))
        (scaledDim h (aspectScale h w T T)) =
        some ⟨scaledDim h (aspectScale h w T T),
          scaledDim w (aspectScale h w T T), 3⟩ := by
      unfold cv2ResizeShape
      rw [if_neg]
      push_neg
      exact ⟨hz.1, hz.2, hh.ne', hw.ne'⟩
    simp only [hcv]
    rw [if_pos ⟨by trivial, hbh, hbw⟩]

theorem preprocessImageShape_rgb (a b T : Nat) (hT : 0 < T) (ha : 0 < a)
    (hb : 0 < b) : preprocessImageShape ⟨a, b, 3⟩ T T = some [1, 3, T, T] := by
  unfold preprocessImageShape
  rw [cv2ResizeShape_pos hT hT ha hb]
  show (if ((3 : Nat) = 3 ∨ (3 : Nat) = 1) then some [1, 3, T, T] else none) =
    some [1, 3, T, T]
  rw [if_pos (Or.inl rfl)]

/-- C4: for every successfully loaded source image (the loaders always hand
back an RGB array, so the shape is (h, w, 3) with positive h and w) and
positive configured square target (T, T), the maintain-aspect preprocessing
pipeline returns a tensor of shape [1, 3, T, T] exactly, whatever the source
aspect ratio. -/
theorem process_for_inference_aspect_shape (inp : ImageInput) (h w T : Nat)
    (hload : loadImage inp = some ⟨h, w, 3⟩) (hh : 0 < h) (hw : 0 < w)
    (hT : 0 < T) :
    image_process_for_inference inp true T T = some [1, 3, T, T] := by
  have hres := resizeMaintainAspect_shape h w T hh hw hT
  have hpre := preprocessImageShape_rgb T T T hT hT hT
  unfold image_process_for_inference
  rw [hload]
  show (match (if true then resizeMaintainAspect ⟨h, w, 3⟩ T T
      else some ⟨h, w, 3⟩) with
    | none => none
    | some img2 => preprocessImageShape img2 T T) = some [1, 3, T, T]
  rw [if_pos rfl, hres]
  exact hpre

/-- Witness for C4 at a 100 × 400 source and the default 224 × 224 target. -/
theorem process_for_inference_aspect_shape_witness :
    image_process_for_inference (.array ⟨100, 400, 3⟩) true 224 224 =
      some [1, 3, 224, 224] :=
  process_for_inference_aspect_shape (.array ⟨100, 400, 3⟩) 100 400 224 rfl
    (by norm_num) (by norm_num) (by norm_num)


/-! ## C3: extraction failure degrades gracefully -/

theorem buildCandidates_nil_of_no_match (outputs : List (String × PyVal))
    (h1 : ∀ kv ∈ outputs, ¬ kv.1 ∈ priority_keys)
    (h2 : ∀ kv ∈ outputs, containsSub "text" (strLower kv.1) = false)
    (h3 : ∀ kv ∈ outputs, containsSub "logit" (strLower kv.1) = false ∨
      isListLike kv.2 = false) :
    buildCandidates outputs = [] := by
  unfold buildCandidates
  have hc10 : priority_keys.filterMap
      (fun k => (dictFind outputs k).map fun v => Cand.mk k v 10) = [] := by
    refine List.filterMap_eq_nil_iff.mpr ?_
    intro k hk
    have hfind : dictFind outputs k = none := by
      unfold dictFind
      rw [List.find?_eq_none.mpr]
      · rfl
      · intro kv hkv hbeq
        exact h1 kv hkv (by rw [eq_of_beq hbeq]; exact hk)
    rw [hfind]
    rfl
  have hc5 : outputs.filterMap (fun kv =>
      if !(priority_keys.contains kv.1) && containsSub "text" (strLower kv.1) then
        some (Cand.mk kv.1 kv.2 5)
      else none) = [] := by
    refine List.filterMap_eq_nil_iff.mpr ?_
    intro kv hkv
    rw [if_neg]
    rw [h2 kv hkv]
    simp
  have hc1 : outputs.filterMap (fun kv =>
      if containsSub "logit" (strLower kv.1) && isListLike kv.2 then
        some (Cand.mk kv.1 kv.2 1)
      else none) = [] := by
    refine List.filterMap_eq_nil_iff.mpr ?_
    intro kv hkv
    rw [if_neg]
    rcases h3 kv hkv with h | h <;> rw [h] <;> simp
  rw [hc10, hc5, hc1]
  rfl

/-- C3: on every output map with no priority-10 key, no key containing
"text" (case-insensitively) and no list-like value under a key containing
"logit", the extractor returns exactly the fixed failure sentinel; and a
multimodal call whose invocation succeeded returns success:true regardless of
what extraction produced — extraction failure never fails the request. -/
theorem extract_sentinel_and_multimodal_success :
    (∀ (f : PyVal → String) (outputs : List (String × PyVal)),
      (∀ kv ∈ outputs, ¬ kv.1 ∈ priority_keys) →
      (∀ kv ∈ outputs, containsSub "text" (strLower kv.1) = false) →
      (∀ kv ∈ outputs, containsSub "logit" (strLower kv.1) = false ∨
        isListLike kv.2 = false) →
      extract_text_from_multimodal_output f outputs = extractionFailureSentinel) ∧
    (∀ (env : Env) (f : PyVal → String) (s : EngineState) (name : String)
       (inp : ImageInput) (txt : String) (mar : Bool) (cm : CompiledModel)
       (shape : List Nat) (results : List PyVal),
      dictFind s.models name = some cm →
      image_process_for_inference inp mar env.targetW env.targetH = some shape →
      cm.invokeNamed (multimodalInputs cm.inputNames (imageTensor shape)
        (text_process_for_inference env.maxLength txt)) = .ok results →
      cm.outputNames.length ≤ results.length →
      (infer_multimodal env f s name inp txt mar).map (fun r => r.success) =
        some true) := by
  constructor
  · intro f outputs h1 h2 h3
    unfold extract_text_from_multimodal_output
    rw [buildCandidates_nil_of_no_match outputs h1 h2 h3]
    rfl
  · intro env f s name inp txt mar cm shape results hfind himg hinv hlen
    simp only [infer_multimodal, hfind, himg, hinv]
    rw [if_neg (Nat.not_lt.mpr hlen)]
    rfl


/-- Witness for C3 on the concrete map mapping `embedding` to [0.1, 0.2],
and a loaded multimodal model producing exactly that output. -/
theorem extract_sentinel_and_multimodal_success_witness :
    extract_text_from_multimodal_output (fun _ => "")
      [("embedding", .vList [.vFloat (1 / 10), .vFloat (2 / 10)])] =
      extractionFailureSentinel ∧
    (infer_multimodal env0 (fun _ => "") mmState "mm" (.array ⟨2, 2, 3⟩) "hi"
      false).map (fun r => r.success) = some true := by
  constructor
  · exact extract_sentinel_and_multimodal_success.1 (fun _ => "")
      [("embedding", .vList [.vFloat (1 / 10), .vFloat (2 / 10)])]
      (by decide) (by decide) (by decide)
  · exact extract_sentinel_and_multimodal_success.2 env0 (fun _ => "") mmState "mm"
      (.array ⟨2, 2, 3⟩) "hi" false mmCM [1, 3, 224, 224]
      [.vList [.vFloat (1 / 10), .vFloat (2 / 10)]] rfl rfl rfl (by decide)


/-! ## C8: benchmark statistics exclude the warmup invocations -/

theorem timedLoop_ten (dur : Nat → ℚ) :
    timedLoop dur 3 10 = [dur 3, dur 4, dur 5, dur 6, dur 7, dur 8, dur 9,
      dur 10, dur 11, dur 12] := rfl

/-- C8: benchmarking a loaded model with N = 10 iterations runs 3 warmup
invocations first (consuming durations 0..2) and then reports
mean/min/max/fps (and the spread) computed over exactly the 10 post-warmup
samples, durations 3..12; the report is identical for any two duration
streams that agree on indices 3..12, so the warmup samples never enter the
statistics. -/
theorem benchmark_stats_exclude_warmup :
    (∀ (env : Env) (dur : Nat → ℚ) (s : EngineState) (name : String)
       (cm : CompiledModel) (cfg : ModelConfig),
      dictFind s.models name = some cm →
      dictFind s.model_configs name = some cfg →
      benchmark_model env dur s name 10 = some
        { model_name := name, model_type := cfg.mtype, device := env.device,
          iterations := 10,
          timing_stats :=
            { mean_time := npMean [dur 3, dur 4, dur 5, dur 6, dur 7, dur 8,
                dur 9, dur 10, dur 11, dur 12],
              var_time := npVariance [dur 3, dur 4, dur 5, dur 6, dur 7, dur 8,
                dur 9, dur 10, dur 11, dur 12],
              min_time := npMinList [dur 3, dur 4, dur 5, dur 6, dur 7, dur 8,
                dur 9, dur 10, dur 11, dur 12],
              max_time := npMaxList [dur 3, dur 4, dur 5, dur 6, dur 7, dur 8,
                dur 9, dur 10, dur 11, dur 12],
              fps := 1 / npMean [dur 3, dur 4, dur 5, dur 6, dur 7, dur 8,
                dur 9, dur 10, dur 11, dur 12] } }) ∧
    (∀ (env : Env) (dur dur2 : Nat → ℚ) (s : EngineState) (name : String),
      (∀ k, 3 ≤ k → k < 13 → dur k = dur2 k) →
      benchmark_model env dur s name 10 = benchmark_model env dur2 s name 10) := by
  have hmain : ∀ (env : Env) (dur : Nat → ℚ) (s : EngineState) (name : String)
      (cm : CompiledModel) (cfg : ModelConfig),
      dictFind s.models name = some cm →
      dictFind s.model_configs name = some cfg →
      benchmark_model env dur s name 10 = some
        { model_name := name, model_type := cfg.mtype, device := env.device,
          iterations := 10,
          timing_stats :=
            { mean_time := npMean (timedLoop dur 3 10),
              var_time := npVariance (timedLoop dur 3 10),
              min_time := npMinList (timedLoop dur 3 10),
              max_time := npMaxList (timedLoop dur 3 10),
              fps := 1 / npMean (timedLoop dur 3 10) } } := by
    intro env dur s name cm cfg hfind hcfg
    simp only [benchmark_model, hfind, hcfg]
    rw [if_neg (by rw [timedLoop_ten]; simp)]
  constructor
  · intro env dur s name cm cfg hfind hcfg
    rw [hmain env dur s name cm cfg hfind hcfg, timedLoop_ten]
  · intro env dur dur2 s name hagree
    have hlist : timedLoop dur 3 10 = timedLoop dur2 3 10 := by
      rw [timedLoop_ten, timedLoop_ten,
        hagree 3 (by norm_num) (by norm_num), hagree 4 (by norm_num) (by norm_num),
        hagree 5 (by norm_num) (by norm_num), hagree 6 (by norm_num) (by norm_num),
        hagree 7 (by norm_num) (by norm_num), hagree 8 (by norm_num) (by norm_num),
        hagree 9 (by norm_num) (by norm_num), hagree 10 (by norm_num) (by norm_num),
        hagree 11 (by norm_num) (by norm_num), hagree 12 (by norm_num) (by norm_num)]
    cases hfind : dictFind s.models name with
    | none => simp only [benchmark_model, hfind]
    | some cm =>
      cases hcfg : dictFind s.model_configs name with
      | none => simp only [benchmark_model, hfind, hcfg]
      | some cfg =>
        rw [hmain env dur s name cm cfg hfind hcfg,
          hmain env dur2 s name cm cfg hfind hcfg, hlist]

/-- Witness for C8: the loaded `mm` model with the identity duration stream
and a stream corrupted only on the warmup indices. -/
theorem benchmark_stats_exclude_warmup_witness :
    benchmark_model env0 (fun k => (k : ℚ)) mmState "mm" 10 = some
      { model_name := "mm", model_type := "multimodal", device := env0.device,
        iterations := 10,
        timing_stats :=
          { mean_time := npMean [3, 4, 5, 6, 7, 8, 9, 10, 11, 12],
            var_time := npVariance [3, 4, 5, 6, 7, 8, 9, 10, 11, 12],
            min_time := npMinList [3, 4, 5, 6, 7, 8, 9, 10, 11, 12],
            max_time := npMaxList [3, 4, 5, 6, 7, 8, 9, 10, 11, 12],
            fps := 1 / npMean [3, 4, 5, 6, 7, 8, 9, 10, 11, 12] } } ∧
    benchmark_model env0 (fun k => (k : ℚ)) mmState "mm" 10 =
      benchmark_model env0 (fun k => if k < 3 then 99 else (k : ℚ)) mmState "mm" 10 := by
  constructor
  · have h := benchmark_stats_exclude_warmup.1 env0 (fun k => (k : ℚ)) mmState "mm"
      mmCM (⟨"multimodal", "m.xml", mmCM.inputNames, mmCM.outputNames⟩ : ModelConfig)
      rfl rfl
    rw [h]
    norm_num
  · exact (benchmark_stats_exclude_warmup.2 env0 (fun k => (k : ℚ))
      (fun k => if k < 3 then 99 else (k : ℚ)) mmState "mm"
      (fun k hk1 _hk2 => by
        show (k : ℚ) = if k < 3 then 99 else (k : ℚ)
        rw [if_neg (by omega)])).symm


/-! ## C10: positional binding in infer_image -/

theorem list_isEmpty_false_of_ne_nil {α : Type} {l : List α} (h : l ≠ []) :
    l.isEmpty = false := by
  cases l with
  | nil => exact absurd rfl h
  | cons a as => rfl

/-- C10: the image-only entry point passes the preprocessed tensor to the
compiled model positionally, as the single-element list, so its result never
depends on the declared input-port names (beyond the IndexError check that
some port exists); the name-substring heuristic acts only on the multimodal
path, where renaming a port away from the image substrings does change the
bound inputs and hence the result. -/
theorem infer_image_positional :
    (∀ (env : Env) (s s2 : EngineState) (name : String) (inp : ImageInput)
       (mar : Bool) (cm cm2 : CompiledModel),
      dictFind s.models name = some cm →
      dictFind s2.models name = some cm2 →
      cm2.invokePos = cm.invokePos → cm2.outputNames = cm.outputNames →
      cm.inputNames ≠ [] → cm2.inputNames ≠ [] →
      infer_image env s2 name inp mar = infer_image env s name inp mar) ∧
    (∃ (env : Env) (f : PyVal → String) (s s2 : EngineState) (name : String)
       (inp : ImageInput) (txt : String) (cm cm2 : CompiledModel),
      dictFind s.models name = some cm ∧
      dictFind s2.models name = some cm2 ∧
      cm2.invokeNamed = cm.invokeNamed ∧ cm2.invokePos = cm.invokePos ∧
      cm2.outputNames = cm.outputNames ∧ cm.inputNames ≠ [] ∧
      cm2.inputNames ≠ [] ∧
      infer_image env s2 name inp false = infer_image env s name inp false ∧
      infer_multimodal env f s2 name inp txt false ≠
        infer_multimodal env f s name inp txt false) := by
  constructor
  · intro env s s2 name inp mar cm cm2 h1 h2 hpos houts hne hne2
    simp only [infer_image, h1, h2, hpos, houts,
      list_isEmpty_false_of_ne_nil hne, list_isEmpty_false_of_ne_nil hne2]
  · refine ⟨env0, fun _ => "", ⟨[("m", countCM ["image_in", "input_ids"])], []⟩,
      ⟨[("m", countCM ["port_a", "input_ids"])], []⟩, "m", .array ⟨2, 2, 3⟩, "hi",
      countCM ["image_in", "input_ids"], countCM ["port_a", "input_ids"],
      rfl, rfl, rfl, rfl, rfl, by simp [countCM], by simp [countCM], rfl, ?_⟩
    intro hcontra
    have h1 : headOutputInt (infer_multimodal env0 (fun _ => "")
        ⟨[("m", countCM ["port_a", "input_ids"])], []⟩ "m" (.array ⟨2, 2, 3⟩)
        "hi" false) = some 1 := rfl
    rw [hcontra] at h1
    have h2 : headOutputInt (infer_multimodal env0 (fun _ => "")
        ⟨[("m", countCM ["image_in", "input_ids"])], []⟩ "m" (.array ⟨2, 2, 3⟩)
        "hi" false) = some 2 := rfl
    rw [h2] at h1
    exact absurd h1 (by decide)

/-- Witness for C10's universally quantified part: two states whose models
differ only in their input-port names produce identical infer_image
results. -/
theorem infer_image_positional_witness :
    infer_image env0 ⟨[("m", countCM ["port_a", "input_ids"])], []⟩ "m"
      (.array ⟨2, 2, 3⟩) false =
    infer_image env0 ⟨[("m", countCM ["image_in", "input_ids"])], []⟩ "m"
      (.array ⟨2, 2, 3⟩) false :=
  infer_image_positional.1 env0 ⟨[("m", countCM ["image_in", "input_ids"])], []⟩
    ⟨[("m", countCM ["port_a", "input_ids"])], []⟩ "m" (.array ⟨2, 2, 3⟩) false
    (countCM ["image_in", "input_ids"]) (countCM ["port_a", "input_ids"])
    rfl rfl rfl rfl (by simp [countCM]) (by simp [countCM])

/-! ## C1: result shape of the inference entry points -/

/-- C1 (amended): the three entry points return None (an absent result) when
the model name is not registered, when image preprocessing fails, and — for
infer_text — when input binding matches no port; every present result has
the uniform shape: an invocation exception yields success:false with the
error message and no timing, and the success path yields success:true with
no error and the full timing block. -/
theorem infer_result_shape :
    (∀ (env : Env) (s : EngineState) (name : String) (inp : ImageInput)
       (txt : String) (mar : Bool) (f : PyVal → String),
      dictFind s.models name = none →
        infer_image env s name inp mar = none ∧
        infer_text env s name txt = none ∧
        infer_multimodal env f s name inp txt mar = none) ∧
    (∀ (env : Env) (s : EngineState) (name : String) (inp : ImageInput)
       (txt : String) (mar : Bool) (f : PyVal → String),
      image_process_for_inference inp mar env.targetW env.targetH = none →
        infer_image env s name inp mar = none ∧
        infer_multimodal env f s name inp txt mar = none) ∧
    (∀ (env : Env) (s : EngineState) (name : String) (txt : String)
       (cm : CompiledModel),
      dictFind s.models name = some cm →
      textBindLoop cm.inputNames (text_process_for_inference env.maxLength txt) =
        [] →
      infer_text env s name txt = none) ∧
    (∀ (env : Env) (s : EngineState) (name : String) (inp : ImageInput)
       (mar : Bool) (r : InferResult), infer_image env s name inp mar = some r →
      (r.success = true ∧ r.timing ≠ none ∧ r.error = none) ∨
      (r.success = false ∧ r.error ≠ none ∧ r.timing = none)) ∧
    (∀ (env : Env) (s : EngineState) (name : String) (txt : String)
       (r : InferResult), infer_text env s name txt = some r →
      (r.success = true ∧ r.timing ≠ none ∧ r.error = none) ∨
      (r.success = false ∧ r.error ≠ none ∧ r.timing = none)) ∧
    (∀ (env : Env) (s : EngineState) (name : String) (inp : ImageInput)
       (txt : String) (mar : Bool) (f : PyVal → String) (r : InferResult),
      infer_multimodal env f s name inp txt mar = some r →
      (r.success = true ∧ r.timing ≠ none ∧ r.error = none) ∨
      (r.success = false ∧ r.error ≠ none ∧ r.timing = none)) := by
  refine ⟨?_, ?_, ?_, ?_, ?_, ?_⟩
  · intro env s name inp txt mar f h
    refine ⟨?_, ?_, ?_⟩ <;> simp only [infer_image, infer_text, infer_multimodal, h]
  · intro env s name inp txt mar f h
    constructor
    · cases hf : dictFind s.models name with
      | none => simp only [infer_image, hf]
      | some cm => simp only [infer_image, hf, h]
    · cases hf : dictFind s.models name with
      | none => simp only [infer_multimodal, hf]
      | some cm => simp only [infer_multimodal, hf, h]
  · intro env s name txt cm hf hbind
    simp only [infer_text, hf, hbind, List.isEmpty_nil, if_true]
  · intro env s name inp mar r h
    unfold infer_image at h
    split at h
    · cases h
    · split at h
      · cases h
      · split at h
        · injection h with h
          subst h
          right
          exact ⟨rfl, by simp, rfl⟩
        · split at h
          · injection h with h
            subst h
            right
            exact ⟨rfl, by simp, rfl⟩
          · split at h
            · injection h with h
              subst h
              right
              exact ⟨rfl, by simp, rfl⟩
            · injection h with h
              subst h
              left
              exact ⟨rfl, by simp, rfl⟩
  · intro env s name txt r h
    unfold infer_text at h
    simp only [] at h
    split at h
    · cases h
    · split at h
      · cases h
      · split at h
        · injection h with h
          subst h
          right
          exact ⟨rfl, by simp, rfl⟩
        · split at h
          · injection h with h
            subst h
            right
            exact ⟨rfl, by simp, rfl⟩
          · injection h with h
            subst h
            left
            exact ⟨rfl, by simp, rfl⟩
  · intro env s name inp txt mar f r h
    unfold infer_multimodal at h
    simp only [] at h
    split at h
    · cases h
    · split at h
      · cases h
      · split at h
        · injection h with h
          subst h
          right
          exact ⟨rfl, by simp, rfl⟩
        · split at h
          · injection h with h
            subst h
            right
            exact ⟨rfl, by simp, rfl⟩
          · injection h with h
            subst h
            left
            exact ⟨rfl, by simp, rfl⟩

/-- C1, counterexample: with no model registered, infer_image returns None —
an absent result, not any success:false record — so the claimed uniform
result shape does not hold on the model-not-loaded path. -/
theorem infer_missing_model_returns_none_cex :
    infer_image env0 initEngine "missing" (.array ⟨2, 2, 3⟩) false = none := rfl

/-- Witness for the amended C1: the None paths at concrete inputs, plus the
shape of a concrete failing invocation and of a concrete success. -/
theorem infer_result_shape_witness :
    (infer_image env0 initEngine "m" (.array ⟨2, 2, 3⟩) false = none ∧
     infer_text env0 initEngine "m" "hi" = none ∧
     infer_multimodal env0 (fun _ => "") initEngine "m" (.array ⟨2, 2, 3⟩) "hi"
       false = none) ∧
    (infer_image env0 errState "m" (.bytes none) false = none ∧
     infer_multimodal env0 (fun _ => "") errState "m" (.bytes none) "hi" false =
       none) ∧
    (infer_text env0 ⟨[("m", countCM ["weird_port"])], []⟩ "m" "hi" = none) ∧
    ((({ success := false, error := some "boom", model_name := "m" } :
        InferResult).success = true ∧
      ({ success := false, error := some "boom", model_name := "m" } :
        InferResult).timing ≠ none ∧
      ({ success := false, error := some "boom", model_name := "m" } :
        InferResult).error = none) ∨
     (({ success := false, error := some "boom", model_name := "m" } :
        InferResult).success = false ∧
      ({ success := false, error := some "boom", model_name := "m" } :
        InferResult).error ≠ none ∧
      ({ success := false, error := some "boom", model_name := "m" } :
        InferResult).timing = none)) := by
  refine ⟨?_, ?_, ?_, ?_⟩
  · exact infer_result_shape.1 env0 initEngine "m" (.array ⟨2, 2, 3⟩) "hi" false
      (fun _ => "") rfl
  · exact infer_result_shape.2.1 env0 errState "m" (.bytes none) "hi" false
      (fun _ => "") rfl
  · exact infer_result_shape.2.2.1 env0 ⟨[("m", countCM ["weird_port"])], []⟩ "m"
      "hi" (countCM ["weird_port"]) rfl rfl
  · exact infer_result_shape.2.2.2.1 env0 errState "m" (.array ⟨2, 2, 3⟩) false
      { success := false, error := some "boom", model_name := "m" } rfl


/-- Witness for C2 at a concrete logits sampler. -/
theorem extract_answer_over_logits_witness :
    (sortCandidates (buildCandidates
        [("answer", .vStr "42"),
         ("some_logits", .vList [.vFloat (1/10), .vFloat 5, .vFloat (3/10)])])).head? =
      some ⟨"answer", .vStr "42", 10⟩ ∧
    extract_text_from_multimodal_output (fun _ => "sampled")
        [("answer", .vStr "42"),
         ("some_logits", .vList [.vFloat (1/10), .vFloat 5, .vFloat (3/10)])] = "42." :=
  extract_answer_over_logits (fun _ => "sampled")


end PiVot
